import Mathlib

/-!
# ftserver.c : packet codec, control session and transfer engine

A shallow embedding of `src/project_2/ftserver.c`.

* A byte is a `Fin 256`.  A `char*` argument is the list of bytes found at
  the pointer; the C string it denotes is the prefix before the first zero
  byte (`cstr`), the end of the list standing for a terminator.
* What the server does is recorded as a trace of events, in program order:
  every byte handed to `send` together with its socket, every `fopen`,
  `socket` and `close` call.  `send` is taken to accept the bytes it is
  offered.
* What the server receives on a socket is a script of arrivals consumed by
  `recv`; loops that the source does not bound take a fuel argument.
* `exit(1)` and running out of fuel are outcomes of their own.
* Two facts about the machine are parameters (`Host`): the byte order and
  the size of a pointer, which `recvPack` uses as a read size.
* Bytes that a call writes past the end of an object (`strcpy` of a long
  string, the length read of `recvPack`) are not followed any further: the
  model gives the bytes that land inside the object and the bytes on the
  wire.

The file has the definitions first (the program, then the vocabulary of the
specification), then lemmas and the theorems on the claims of the
specification.
-/

namespace FtServer

/-! ## Constants and basic types -/

/-- Source: `#define ARG_LEN 8`. -/
def ARG_LEN : Nat := 8

/-- Source: `#define MAX_PACK_PAYLOAD_LEN 512`. -/
def MAX_PACK_PAYLOAD_LEN : Nat := 512

abbrev Byte := Fin 256

/-- A socket file descriptor. -/
abbrev Fd := Int

/-- The two facts about the machine that the source depends on: its byte
order and `sizeof` of a pointer. -/
structure Host where
  littleEndian : Bool
  ptrSize : Nat
deriving DecidableEq, Repr

/-- The usual 64-bit little-endian machine (pointers of 8 bytes). -/
def lp64 : Host := { littleEndian := true, ptrSize := 8 }

/-- Observable actions of the server. -/
inductive Event where
  | send (sockfd : Fd) (b : Byte)
  | fopen (name : List Byte)
  | socket (fd : Fd)
  | close (fd : Fd)
deriving DecidableEq, Repr

abbrev Trace := List Event

/-- How a call ends: it returns a value, the process leaves through
`exit(1)`, or the loop bound of the model is used up. -/
inductive Outcome (α : Type) where
  | ret (a : α)
  | exited
  | outOfFuel
deriving DecidableEq, Repr

/-- The bytes sent on socket `fd`, in order. -/
def sentOn (fd : Fd) (t : Trace) : List Byte :=
  t.filterMap fun e =>
    match e with
    | Event.send fd2 b => if fd2 = fd then some b else none
    | _ => none

/-! ## C strings -/

/-- The C string denoted by a pointer to `s`: the bytes before the first
zero byte. -/
def cstr (s : List Byte) : List Byte := s.takeWhile (fun b => b ≠ 0)

/-- The function `strlen`. -/
def strlen (s : List Byte) : Nat := (cstr s).length

/-- The bytes of a string literal of the source. -/
def lit (s : String) : List Byte := s.toList.map fun c => Fin.ofNat c.toNat

/-- Call `strcpy(dst, src)`: the bytes at `dst` afterwards.  The characters of
`src` and a terminator are written from `dst[0]` on; bytes of `dst` behind
them keep their value.  A result longer than `dst` means the copy ran past
the end of the destination. -/
def strcpy (dst src : List Byte) : List Byte :=
  (cstr src ++ [0]) ++ dst.drop ((cstr src).length + 1)

/-- The test `strcmp(a, b) == 0`. -/
def streq (a b : List Byte) : Bool := cstr a = cstr b

/-! ## unsigned short and byte order -/

/-- Conversion to `unsigned short`. -/
def toUShort (v : Int) : Nat := (v % 65536).toNat

/-- The two bytes an `unsigned short` occupies in memory. -/
def ushortBytes (h : Host) (v : Nat) : List Byte :=
  if h.littleEndian then [Fin.ofNat (v % 256), Fin.ofNat (v / 256 % 256)]
  else [Fin.ofNat (v / 256 % 256), Fin.ofNat (v % 256)]

/-- The `unsigned short` held by the first two bytes of `m`. -/
def ushortAt (h : Host) (m : List Byte) : Nat :=
  let b0 := (m.getD 0 0).val
  let b1 := (m.getD 1 0).val
  if h.littleEndian then b0 + 256 * b1 else 256 * b0 + b1

/-- The function `ntohs`: swaps the two bytes on a little-endian host, the identity on a
big-endian one. -/
def ntohs (h : Host) (v : Nat) : Nat :=
  if h.littleEndian then (v % 256) * 256 + v / 256 % 256 else v % 65536

/-! ## Sending -/

/-- Function `sendFile(sockfd, buffer, presetSize)`: the loop calls `send` until
`presetSize` bytes of `buffer` are out; `send` is taken to accept what it is
offered, so the bytes `buffer[0 .. presetSize)` go out in order. -/
def sendFile (sockfd : Fd) (buffer : List Byte) (presetSize : Nat) : Trace :=
  (buffer.take presetSize).map (Event.send sockfd)

/-- Function `sendPack(sockfd, option, data)`: what it sends. -/
def sendPack (h : Host) (sockfd : Fd) (option data : List Byte) : Trace :=
  -- packLen = ntohs(sizeof(packLen) + ARG_LEN + strlen(data));
  let packLen := ntohs h (toUShort ((2 + ARG_LEN + strlen data : Nat) : Int))
  -- sendFile(sockfd, &packLen, sizeof(packLen));
  let t1 := sendFile sockfd (ushortBytes h packLen) 2
  -- memset(optionBuf, '\0', ARG_LEN); strcpy(optionBuf, option);
  -- (optionBuf[ARG_LEN] is not set by memset and is never sent)
  let optionBuf := strcpy (List.replicate ARG_LEN 0) option
  -- sendFile(sockfd, optionBuf, ARG_LEN);
  let t2 := sendFile sockfd optionBuf ARG_LEN
  -- sendFile(sockfd, data, strlen(data));
  let t3 := sendFile sockfd data (strlen data)
  t1 ++ t2 ++ t3

/-! ## Receiving -/

/-- What is still to arrive on a socket: each element is one arrival,
`some bs` a run of bytes, `none` a failure of `recv`.  When nothing is left
the peer has closed the connection. -/
abbrev Input := List (Option (List Byte))

/-- Call `recv(sockfd, buf, len, 0)`: the return value, the bytes stored and the
input left.  A closed connection gives 0, a failure -1; otherwise at most
`len` bytes of the next arrival are delivered and the rest of it stays
queued. -/
def recv (inp : Input) (len : Nat) : Int × List Byte × Input :=
  match inp with
  | [] => (0, [], [])
  | none :: rest => (-1, [], rest)
  | some bs :: rest =>
    if bs.length ≤ len then ((bs.length : Int), bs, rest)
    else ((len : Int), bs.take len, some (bs.drop len) :: rest)

/-- The `while` loop of `recvFile`: `buf` holds the `totalRecvBytes` bytes
stored so far. -/
def recvLoop : Nat → Input → List Byte → Int → Int → Outcome (List Byte × Input)
  | 0, inp, buf, presetSize, totalRecvBytes =>
    if totalRecvBytes < presetSize then Outcome.outOfFuel else Outcome.ret (buf, inp)
  | fuel + 1, inp, buf, presetSize, totalRecvBytes =>
    if totalRecvBytes < presetSize then
      match recv inp (presetSize - totalRecvBytes).toNat with
      | (recvReturnBytes, bs, inp2) =>
        if recvReturnBytes = -1 then Outcome.exited
        else recvLoop fuel inp2 (buf ++ bs) presetSize (totalRecvBytes + recvReturnBytes)
    else Outcome.ret (buf, inp)

/-- Function `recvFile(sockfd, buf, presetSize)`: the bytes stored at `buf` and the
input left. -/
def recvFile (fuel : Nat) (inp : Input) (presetSize : Int) : Outcome (List Byte × Input) :=
  recvLoop fuel inp [] presetSize 0

/-- The payload size `recvPack` computes:
`dataLen = packLen - ARG_LEN - sizeof(packLen)`, stored in an
`unsigned short`. -/
def dataLenOf (packLen : Nat) : Nat :=
  toUShort ((packLen : Int) - (ARG_LEN : Int) - 2)

/-- Function `recvPack(sockfd, option, data)`: the strings copied to `option` and
`data`, and the input left.  The first read asks for `sizeof(&packLen)`
bytes, the size of a pointer; `packLen` is the first two of them.  When a
pointer has more than two bytes the others are written past `packLen`, and
a payload of more than 513 bytes is written past `dataBuf`: what the
program does after such a write is not defined by C, and the model goes on
as if the bytes were lost.  A run of this model that passes through such a
write shows where the bytes of the connection go; it is not used as
evidence that the source does what the specification says. -/
def recvPack (h : Host) (fuel : Nat) (inp : Input) :
    Outcome (List Byte × List Byte × Input) :=
  match recvFile fuel inp (h.ptrSize : Int) with
  | Outcome.exited => Outcome.exited
  | Outcome.outOfFuel => Outcome.outOfFuel
  | Outcome.ret (lenBuf, inp1) =>
    let packLen := ntohs h (ushortAt h lenBuf)
    match recvFile fuel inp1 (ARG_LEN : Int) with
    | Outcome.exited => Outcome.exited
    | Outcome.outOfFuel => Outcome.outOfFuel
    | Outcome.ret (optionBuf, inp2) =>
      let dataLen := dataLenOf packLen
      match recvFile fuel inp2 (dataLen : Int) with
      | Outcome.exited => Outcome.exited
      | Outcome.outOfFuel => Outcome.outOfFuel
      | Outcome.ret (dataBuf, inp3) =>
        Outcome.ret (cstr optionBuf, cstr dataBuf, inp3)

/-! ## Control session -/

/-- The test `isspace` in the C locale. -/
def isspace (b : Byte) : Bool := b.val = 32 || (9 ≤ b.val && b.val ≤ 13)

/-- The test `isdigit`. -/
def isdigit (b : Byte) : Bool := 48 ≤ b.val && b.val ≤ 57

/-- The digit loop of `atoi`. -/
def atoiDigits : List Byte → Int → Int
  | [], acc => acc
  | b :: bs, acc =>
    if isdigit b then atoiDigits bs (acc * 10 + ((b.val : Int) - 48)) else acc

/-- The number that `strtol(s, NULL, 10)` reads: leading white space, an
optional sign, then decimal digits up to the first other character. -/
def atoiValue (s : List Byte) : Int :=
  match (cstr s).dropWhile isspace with
  | [] => 0
  | b :: bs =>
    if b.val = 45 then - atoiDigits bs 0
    else if b.val = 43 then atoiDigits bs 0
    else atoiDigits (b :: bs) 0

/-- The result of `strtol` for a number outside the range of `long`:
`LONG_MIN` or `LONG_MAX`, for a `long` of 64 bits. -/
def clampLong (v : Int) : Int :=
  if v < -9223372036854775808 then -9223372036854775808
  else if 9223372036854775807 < v then 9223372036854775807
  else v

/-- Conversion of a `long` to `int`: the value modulo 2^32 in the range of
`int`. -/
def toInt (v : Int) : Int := (v + 2147483648) % 4294967296 - 2147483648

/-- The function `atoi`, as the C library runs it: `(int) strtol(s, NULL, 10)`.
The C standard leaves the result open for a number that an `int` cannot
hold; this is what the conversion gives there. -/
def atoi (s : List Byte) : Int := toInt (clampLong (atoiValue s))

/-- What `controlConnection` leaves behind: its return value, the three
output parameters, what it sent and the input left. -/
structure ControlResult where
  status : Int
  commandArg : List Byte
  dataConnPort : Int
  filename : List Byte
  trace : Trace
  inp : Input
deriving DecidableEq, Repr

/-- Function `controlConnection(c_controlfd, commandArg, dataConnPort, filename)`;
`dataConnPort` is the value the caller's variable holds on entry.  On a
valid command the source copies the 14 bytes of `valid command` into the
9-byte `readoutOption`, and `sendPack` copies them again into its 9-byte
`optionBuf`: the model keeps the string and sends its first 8 bytes, as
if the bytes past the buffers were lost. -/
def controlConnection (h : Host) (fuel : Nat) (c_controlfd : Fd) (dataConnPort : Int)
    (inp : Input) : Outcome ControlResult :=
  -- recvPack(c_controlfd, readinCommand, readinDataPort);
  match recvPack h fuel inp with
  | Outcome.exited => Outcome.exited
  | Outcome.outOfFuel => Outcome.outOfFuel
  | Outcome.ret (readinCommand0, readinDataPort, inp1) =>
    let dataConnPort1 :=
      if streq readinCommand0 (lit "DPORT") then atoi readinDataPort else dataConnPort
    -- recvPack(c_controlfd, readinCommand, readinFilename);
    match recvPack h fuel inp1 with
    | Outcome.exited => Outcome.exited
    | Outcome.outOfFuel => Outcome.outOfFuel
    | Outcome.ret (readinCommand, readinFilename, inp2) =>
      let commandArg := cstr (strcpy (List.replicate (ARG_LEN + 1) 0) readinCommand)
      let filename := cstr (strcpy (List.replicate (MAX_PACK_PAYLOAD_LEN + 1) 0) readinFilename)
      if !streq readinCommand (lit "LIST") && !streq readinCommand (lit "GET") then
        let readoutOption := strcpy (List.replicate (ARG_LEN + 1) 0) (lit "ERROR")
        let readoutData := strcpy (List.replicate (MAX_PACK_PAYLOAD_LEN + 1) 0)
          (lit "command usage: -l || -g <FILENAME>")
        Outcome.ret
          { status := -1, commandArg := commandArg, dataConnPort := dataConnPort1,
            filename := filename, trace := sendPack h c_controlfd readoutOption readoutData,
            inp := inp2 }
      else
        let readoutOption := strcpy (List.replicate (ARG_LEN + 1) 0) (lit "valid command")
        Outcome.ret
          { status := 0, commandArg := commandArg, dataConnPort := dataConnPort1,
            filename := filename, trace := sendPack h c_controlfd readoutOption (lit ""),
            inp := inp2 }

/-! ## Directory lister -/

/-- One entry that `readdir` yields.  `isDir = some d`: `stat` on the name
succeeds and `S_ISDIR` gives `d`.  `isDir = none`: `stat` fails and leaves
`info` as it was. -/
structure DirEntry where
  d_name : List Byte
  isDir : Option Bool
deriving DecidableEq, Repr

/-- An open file: the bytes `fread` can deliver, and whether reading stops
with an error (`ferror`) instead of end-of-file once they are delivered. -/
structure File where
  content : List Byte
  failing : Bool
deriving DecidableEq, Repr

/-- What the operating system answers. -/
structure Env where
  /-- Entries of ".", in the order `readdir` yields them; `none` when
  `opendir` fails. -/
  dir : Option (List DirEntry)
  /-- Whether the uninitialised `struct stat info` of `listFiles` reads as a
  directory. -/
  info0 : Bool
  /-- Result of `fopen(name, "r")`. -/
  fopen : List Byte → Option File
  /-- Return value of `socket`. -/
  socketRet : Int
  /-- Return value of `close`. -/
  closeRet : Int

/-- The `while` loop of `listFiles`: `info` is what `S_ISDIR(info.st_mode)`
gave after the previous `stat`. -/
def listLoop : List DirEntry → List (List Byte) → Nat → Bool → List (List Byte) × Nat
  | [], fileList, numFiles, _ => (fileList, numFiles)
  | entry :: rest, fileList, numFiles, info =>
    -- stat(entry->d_name, &info);
    let info1 := match entry.isDir with
      | some d => d
      | none => info
    if info1 then listLoop rest fileList numFiles info1
    else listLoop rest (fileList ++ [cstr entry.d_name]) (numFiles + 1) info1

/-- Function `listFiles(dirname, numFiles)`: the array returned and `*numFiles`. -/
def listFiles (env : Env) : Outcome (List (List Byte) × Nat) :=
  match env.dir with
  | none => Outcome.exited
  | some entries => Outcome.ret (listLoop entries [] 0 env.info0)

/-! ## Transfer engine -/

/-- The loop `for(i = 0; i < numFiles; i++) sendPack(datafd, "FNAME", fileList[i]);` -/
def sendNames (h : Host) (datafd : Fd) : List (List Byte) → Trace
  | [] => []
  | name :: rest => sendPack h datafd (lit "FNAME") name ++ sendNames h datafd rest

/-- The search loop of the `GET` branch: `fileStatus` afterwards. -/
def searchFile (filename : List Byte) : List (List Byte) → Bool
  | [] => false
  | name :: rest => if streq filename name then true else searchFile filename rest

/-- The `do ... while(fileBytes > 0)` loop of the `GET` branch; `rest` is
what the file has still to deliver. -/
def freadLoop (h : Host) (datafd : Fd) : Nat → List Byte → Outcome Trace
  | 0, _ => Outcome.outOfFuel
  | fuel + 1, rest =>
    -- fileBytes = fread(fileBuf, sizeof(char), MAX_PACK_PAYLOAD_LEN, clifile);
    let fileBuf := rest.take MAX_PACK_PAYLOAD_LEN
    let fileBytes := fileBuf.length
    -- fileBuf[fileBytes] = '\0'; sendPack(datafd, "FILE", fileBuf);
    let t := sendPack h datafd (lit "FILE") (fileBuf ++ [0])
    if fileBytes > 0 then
      match freadLoop h datafd fuel (rest.drop MAX_PACK_PAYLOAD_LEN) with
      | Outcome.ret t2 => Outcome.ret (t ++ t2)
      | Outcome.exited => Outcome.exited
      | Outcome.outOfFuel => Outcome.outOfFuel
    else Outcome.ret t

/-- Function `dataConnection(controlfd, datafd, commandArg, filename)`: the return
value `check` and what was done. -/
def dataConnection (h : Host) (fuel : Nat) (env : Env) (controlfd datafd : Fd)
    (commandArg filename : List Byte) : Outcome (Int × Trace) :=
  -- fileList = listFiles(".", &numFiles);
  match listFiles env with
  | Outcome.exited => Outcome.exited
  | Outcome.outOfFuel => Outcome.outOfFuel
  | Outcome.ret (fileList, numFiles) =>
    let tail := sendPack h datafd (lit "DONE") (lit "") ++
      sendPack h controlfd (lit "CLOSE") (lit "")
    if streq commandArg (lit "LIST") then
      Outcome.ret (0, sendNames h datafd (fileList.take numFiles) ++ tail)
    else if streq commandArg (lit "GET") then
      if !searchFile filename (fileList.take numFiles) then
        Outcome.ret (-1, sendPack h controlfd (lit "ERROR") (lit "File not found") ++ tail)
      else
        match env.fopen (cstr filename) with
        | none =>
          Outcome.ret (-1, [Event.fopen (cstr filename)] ++
            sendPack h controlfd (lit "ERROR") (lit "File wont open") ++ tail)
        | some clifile =>
          match freadLoop h datafd fuel clifile.content with
          | Outcome.exited => Outcome.exited
          | Outcome.outOfFuel => Outcome.outOfFuel
          | Outcome.ret t =>
            -- if(ferror(clifile)){ perror("fread"); check = -1; }
            let check : Int := if clifile.failing then -1 else 0
            Outcome.ret (check, [Event.fopen (cstr filename)] ++
              sendPack h datafd (lit "FILE") filename ++ t ++ tail)
    else
      Outcome.ret (-1, tail)

/-! ## Session loop -/

/-- One turn of the `while(1)` loop of `ftp`, from the call of
`controlConnection` on: what was done and the input left on the control
connection. -/
def ftpSession (h : Host) (fuel : Nat) (env : Env) (c_controlfd : Fd) (dataConnPort : Int)
    (inp : Input) : Outcome (Trace × Input) :=
  match controlConnection h fuel c_controlfd dataConnPort inp with
  | Outcome.exited => Outcome.exited
  | Outcome.outOfFuel => Outcome.outOfFuel
  | Outcome.ret r =>
    if r.status ≠ -1 then
      -- c_datafd = socket(AF_INET, SOCK_STREAM, 0);
      let c_datafd := env.socketRet
      if c_datafd = -1 then Outcome.exited
      else
        match dataConnection h fuel env c_controlfd c_datafd r.commandArg r.filename with
        | Outcome.exited => Outcome.exited
        | Outcome.outOfFuel => Outcome.outOfFuel
        | Outcome.ret (_, t) =>
          -- recvPack(c_controlfd, NULL, NULL);
          match recvPack h fuel r.inp with
          | Outcome.exited => Outcome.exited
          | Outcome.outOfFuel => Outcome.outOfFuel
          | Outcome.ret (_, _, inp3) =>
            -- status = close(c_datafd);
            if env.closeRet = -1 then Outcome.exited
            else
              Outcome.ret (r.trace ++ [Event.socket c_datafd] ++ t ++ [Event.close c_datafd], inp3)
    else Outcome.ret (r.trace, r.inp)

/-! ## The wire format of the specification -/

/-- The packet of section 3 of the specification: the total length
`2 + 8 + len(payload)` as two bytes, most significant first, the tag padded
with null bytes to 8 bytes, the payload. -/
def wirePacket (tag payload : List Byte) : List Byte :=
  [Fin.ofNat ((2 + 8 + payload.length) / 256), Fin.ofNat ((2 + 8 + payload.length) % 256)] ++
    (tag ++ List.replicate (8 - tag.length) 0) ++ payload

/-- The chunks of the specification for a file of `S` bytes: `ceil(S / 512)`
of them, chunk `i` holding the bytes from offset `512 * i` up to, not
including, offset `512 * (i + 1)`. -/
def fileChunks (content : List Byte) : List (List Byte) :=
  (List.range ((content.length + 511) / 512)).map fun i => (content.drop (512 * i)).take 512

/-! ## Vocabulary of the statements -/

/-- Bytes that a script of arrivals still holds. -/
def pending : Input → Nat
  | [] => 0
  | none :: rest => pending rest
  | some bs :: rest => bs.length + pending rest

/-- The byte stream of a sequence of packets, each given as tag and payload. -/
def wireStream : List (List Byte × List Byte) → List Byte
  | [] => []
  | p :: rest => wirePacket p.1 p.2 ++ wireStream rest

/-- The names the specification expects of the Directory Lister: those of the
entries that are not directories, in enumeration order. -/
def nonDirNames (entries : List DirEntry) : List (List Byte) :=
  (entries.filter fun e => e.isDir = some false).map fun e => cstr e.d_name

/-- The bytes a call put on socket `fd`, when it returned. -/
def streamOf (fd : Fd) : Outcome (Int × Trace) → Option (List Byte)
  | Outcome.ret (_, t) => some (sentOn fd t)
  | _ => none

/-- A directory with one regular file `f` of three bytes, the middle one
zero. -/
def binaryFileEnv : Env :=
  { dir := some [{ d_name := lit "f", isDir := some false }],
    info0 := false,
    fopen := fun _ => some { content := [65, 0, 66], failing := false },
    socketRet := 5,
    closeRet := 0 }

/-- A directory with the entries `.` and `a.txt`, the file holding 1000
bytes `A`. -/
def textFileEnv : Env :=
  { dir := some [{ d_name := lit ".", isDir := some true },
                 { d_name := lit "a.txt", isDir := some false }],
    info0 := false,
    fopen := fun _ => some { content := List.replicate 1000 65, failing := false },
    socketRet := 5,
    closeRet := 0 }

/-- A control connection on which two packets arrive, framed the way
`recvPack` reads them on `lp64` (8 bytes for the length): `DPORT` with
payload `30021`, then a packet with tag `tag` and payload `payload`. -/
def sessionInput (tag payload : List Byte) : Input :=
  [some ([0, 15, 0, 0, 0, 0, 0, 0] ++ lit "DPORT" ++ [0, 0, 0] ++ lit "30021"),
   some ([0, Fin.ofNat (10 + payload.length), 0, 0, 0, 0, 0, 0] ++
     tag ++ List.replicate (8 - tag.length) 0 ++ payload)]

/-- The integer that a string of decimal digits denotes, most significant
digit first. -/
def decimalValue (s : List Byte) : Nat :=
  Nat.ofDigits 10 ((s.map fun b => b.val - 48).reverse)

/-- A directory with one regular file `a.txt` that cannot be opened. -/
def lockedFileEnv : Env :=
  { dir := some [{ d_name := lit "a.txt", isDir := some false }],
    info0 := false,
    fopen := fun _ => none,
    socketRet := 5,
    closeRet := 0 }

/-- A directory with one regular file `a.txt`: reading it delivers the two
bytes `AB` and then fails. -/
def failingFileEnv : Env :=
  { dir := some [{ d_name := lit "a.txt", isDir := some false }],
    info0 := false,
    fopen := fun _ => some { content := lit "AB", failing := true },
    socketRet := 5,
    closeRet := 0 }

/-- A directory that yields `.` and then an entry `x` on which `stat`
fails. -/
def afterDirEnv : Env :=
  { dir := some [{ d_name := lit ".", isDir := some true },
                 { d_name := lit "x", isDir := none }],
    info0 := false,
    fopen := fun _ => none,
    socketRet := 5,
    closeRet := 0 }

/-- A directory that yields the regular file `a.txt` and then an entry `x`
on which `stat` fails. -/
def afterFileEnv : Env :=
  { dir := some [{ d_name := lit "a.txt", isDir := some false },
                 { d_name := lit "x", isDir := none }],
    info0 := false,
    fopen := fun _ => none,
    socketRet := 5,
    closeRet := 0 }

/-- The names that the specification expects of the Directory Lister when
every entry is judged by its own type: those of the entries whose type is
not directory, an entry whose type cannot be obtained included. -/
def ownTypeNames (entries : List DirEntry) : List (List Byte) :=
  (entries.filter fun e => e.isDir ≠ some true).map fun e => cstr e.d_name

/-- The tag strings at the call sites of `sendPack`: `ERROR` and
`valid command` in `controlConnection`, `FNAME`, `ERROR`, `FILE`, `DONE` and
`CLOSE` in `dataConnection`. -/
def sendPackTags : List (List Byte) :=
  [lit "ERROR", lit "valid command", lit "FNAME", lit "FILE", lit "DONE", lit "CLOSE"]

/-- A host on which a pointer has 2 bytes: there `sizeof(&packLen)` is the
2 bytes that `sendPack` writes for the length. -/
def twoByteHost : Host := { littleEndian := true, ptrSize := 2 }

/-- A control connection on which the two packets of a session arrive in
the wire format of the specification: `DPORT` with payload `30021`, then the
command packet with tag `tag` and payload `payload`. -/
def specSession (tag payload : List Byte) : Input :=
  [some (wirePacket (lit "DPORT") (lit "30021") ++ wirePacket tag payload)]

/-- The 8-byte tag field of a tag: the tag padded with null bytes. -/
def padTag (tag : List Byte) : List Byte := tag ++ List.replicate (8 - tag.length) 0

/-- Reading of a byte stream as the receiver of the specification frames
it: two length bytes, most significant first, then the 8 bytes of the tag
field, then `length - 10` payload bytes, packet after packet. -/
def parsePackets : Nat → List Byte → List (List Byte × List Byte)
  | fuel + 1, a :: b :: rest =>
    (rest.take 8, (rest.drop 8).take (256 * a.val + b.val - 10)) ::
      parsePackets fuel (rest.drop (8 + (256 * a.val + b.val - 10)))
  | _, _ => []

/-- The packets, tag field and payload, that a byte stream holds. -/
def packetsOf (s : List Byte) : List (List Byte × List Byte) := parsePackets s.length s

/-- What a packet sent before `DONE` on the data connection can be: a
`FNAME` packet with a name of the listing, or a `FILE` packet with the file
name or with at most 512 bytes of file content. -/
def DataPacketOk (listing : List (List Byte)) (filename : List Byte)
    (p : List Byte × List Byte) : Prop :=
  (p.1 = lit "FNAME" ∧ p.2 ∈ listing) ∨
    (p.1 = lit "FILE" ∧ (p.2 = cstr filename ∨ p.2.length ≤ 512))

/-- What a packet sent before `CLOSE` on the control connection can be: an
`ERROR` packet with one of the two messages of `dataConnection`. -/
def ControlPacketOk (p : List Byte × List Byte) : Prop :=
  p.1 = lit "ERROR" ∧ (p.2 = lit "File not found" ∨ p.2 = lit "File wont open")

/-! ## Lemmas on C strings and on the codec -/

theorem cstr_nil : cstr [] = [] := rfl

theorem cstr_cons_zero (l : List Byte) : cstr (0 :: l) = [] := by
  simp [cstr]

theorem cstr_cons_ne (b : Byte) (l : List Byte) (hb : b ≠ 0) : cstr (b :: l) = b :: cstr l := by
  simp [cstr, hb]

theorem cstr_append_zero (l r : List Byte) : cstr (l ++ 0 :: r) = cstr l := by
  induction l with
  | nil => simp [cstr]
  | cons b l ih =>
    by_cases hb : b = 0
    · subst hb; simp [cstr]
    · rw [List.cons_append, cstr_cons_ne b _ hb, cstr_cons_ne b _ hb, ih]

theorem cstr_nonzero (l : List Byte) : ∀ b ∈ cstr l, b ≠ 0 := by
  intro b hb
  have := List.mem_takeWhile_imp hb
  simpa using this

theorem cstr_of_nonzero (l : List Byte) (hl : ∀ b ∈ l, b ≠ 0) : cstr l = l := by
  induction l with
  | nil => rfl
  | cons b l ih =>
    have hb : b ≠ 0 := hl b (List.mem_cons_self _ _)
    rw [cstr_cons_ne b l hb, ih (fun x hx => hl x (List.mem_cons_of_mem _ hx))]

theorem cstr_cstr (l : List Byte) : cstr (cstr l) = cstr l :=
  cstr_of_nonzero _ (cstr_nonzero l)

theorem cstr_append_zeros (l : List Byte) (n : Nat) :
    cstr (cstr l ++ List.replicate n 0) = cstr l := by
  cases n with
  | zero => simp [cstr_cstr]
  | succ n =>
    rw [List.replicate_succ, cstr_append_zero, cstr_cstr]

theorem take_strlen (l : List Byte) : l.take (strlen l) = cstr l := by
  induction l with
  | nil => rfl
  | cons b l ih =>
    by_cases hb : b = 0
    · subst hb; simp [strlen, cstr]
    · have h1 : strlen (b :: l) = strlen l + 1 := by simp [strlen, cstr_cons_ne b l hb]
      rw [h1, List.take_succ_cons, ih, cstr_cons_ne b l hb]

theorem strlen_le_length (l : List Byte) : strlen l ≤ l.length := by
  unfold strlen cstr
  exact (List.takeWhile_sublist _).length_le

theorem strlen_cstr (l : List Byte) : strlen (cstr l) = strlen l := by
  simp [strlen, cstr_cstr]

theorem streq_iff (a b : List Byte) : streq a b = true ↔ cstr a = cstr b := by
  simp [streq]

/-- The bytes of a `sendFile` call that reach its own socket. -/
theorem sentOn_map_send (fd : Fd) (l : List Byte) :
    sentOn fd (l.map (Event.send fd)) = l := by
  induction l with
  | nil => rfl
  | cons b l ih => simpa [sentOn] using ih

theorem sentOn_map_send_ne (fd fd2 : Fd) (l : List Byte) (hne : fd2 ≠ fd) :
    sentOn fd (l.map (Event.send fd2)) = [] := by
  induction l with
  | nil => rfl
  | cons b l ih => simp [sentOn, hne]

theorem sentOn_append (fd : Fd) (s t : Trace) :
    sentOn fd (s ++ t) = sentOn fd s ++ sentOn fd t := by
  simp [sentOn]

theorem sentOn_nil (fd : Fd) : sentOn fd [] = [] := rfl

theorem sentOn_fopen (fd : Fd) (n : List Byte) (t : Trace) :
    sentOn fd (Event.fopen n :: t) = sentOn fd t := by
  simp [sentOn]

/-- Length field as sent: whatever the byte order of the host, the two bytes
on the wire are the value most significant byte first. -/
theorem ushortBytes_ntohs (h : Host) (v : Nat) :
    ushortBytes h (ntohs h v) = [Fin.ofNat (v / 256 % 256), Fin.ofNat (v % 256)] := by
  unfold ushortBytes ntohs
  cases h.littleEndian
  · have h1 : v % 65536 / 256 % 256 = v / 256 % 256 := by omega
    have h2 : v % 65536 % 256 = v % 256 := by omega
    simp [h1, h2]
  · have h1 : (v % 256 * 256 + v / 256 % 256) % 256 = v / 256 % 256 := by omega
    have h2 : (v % 256 * 256 + v / 256 % 256) / 256 % 256 = v % 256 := by omega
    simp [h1, h2]

theorem ofNat_div_mod (v : Nat) :
    (Fin.ofNat (v / 256 % 256) : Byte) = Fin.ofNat (v / 256) := by
  apply Fin.ext
  simp [Fin.ofNat]

theorem toUShort_natCast (n : Nat) : toUShort (n : Int) = n % 65536 := by
  unfold toUShort
  omega

/-- The tag field as sent, for a tag that fits. -/
theorem tagField (option : List Byte) (ho : strlen option ≤ ARG_LEN) :
    (strcpy (List.replicate ARG_LEN 0) option).take ARG_LEN =
      cstr option ++ List.replicate (8 - (cstr option).length) 0 := by
  unfold strcpy
  unfold strlen at ho
  simp only [ARG_LEN] at ho ⊢
  rw [List.drop_replicate, List.append_assoc, List.take_append_eq_append_take]
  rw [List.take_of_length_le ho]
  congr 1
  rcases Nat.lt_or_ge (cstr option).length 8 with hlt | hge
  · have e1 : 8 - (cstr option).length = (8 - ((cstr option).length + 1)) + 1 := by omega
    rw [e1, List.replicate_succ]
    simp
  · have e1 : 8 - (cstr option).length = 0 := by omega
    simp [e1]

/-- What `sendPack` does, for a tag that fits: it sends the packet of the
specification for the two strings, on its socket and nothing else. -/
theorem sendPack_eq_wire (h : Host) (fd : Fd) (option data : List Byte)
    (ho : strlen option ≤ ARG_LEN) :
    sendPack h fd option data =
      (wirePacket (cstr option) (cstr data)).map (Event.send fd) := by
  unfold sendPack sendFile
  simp only []
  rw [tagField option ho, take_strlen, ushortBytes_ntohs, toUShort_natCast]
  have h1 : (2 + ARG_LEN + strlen data) % 65536 / 256 % 256 = (2 + 8 + (cstr data).length) / 256 % 256 := by
    simp only [ARG_LEN, strlen]; omega
  have h2 : (2 + ARG_LEN + strlen data) % 65536 % 256 = (2 + 8 + (cstr data).length) % 256 := by
    simp only [ARG_LEN, strlen]; omega
  rw [h1, h2, ofNat_div_mod]
  simp [wirePacket]

theorem sendPack_congr (h : Host) (fd : Fd) (option d1 d2 : List Byte)
    (hd : cstr d1 = cstr d2) : sendPack h fd option d1 = sendPack h fd option d2 := by
  have e1 : strlen d1 = strlen d2 := by simp [strlen, hd]
  have e2 : d1.take (strlen d1) = d2.take (strlen d2) := by
    rw [take_strlen, take_strlen, hd]
  unfold sendPack sendFile
  simp only []
  rw [e2, e1]

theorem sentOn_sendPack (h : Host) (fd : Fd) (option data : List Byte)
    (ho : strlen option ≤ ARG_LEN) :
    sentOn fd (sendPack h fd option data) = wirePacket (cstr option) (cstr data) := by
  rw [sendPack_eq_wire h fd option data ho, sentOn_map_send]

theorem sentOn_sendPack_ne (h : Host) (fd fd2 : Fd) (option data : List Byte)
    (hne : fd2 ≠ fd) : sentOn fd (sendPack h fd2 option data) = [] := by
  unfold sendPack sendFile
  simp only [sentOn_append, sentOn_map_send_ne fd fd2 _ hne, List.append_nil]

theorem wirePacket_length (tag payload : List Byte) (ht : tag.length ≤ 8) :
    (wirePacket tag payload).length = 10 + payload.length := by
  simp [wirePacket]
  omega

/-! ## Lemmas on receiving -/

theorem recvLoop_done (fuel : Nat) (inp : Input) (buf : List Byte) (size total : Int)
    (hd : ¬ total < size) : recvLoop fuel inp buf size total = Outcome.ret (buf, inp) := by
  cases fuel <;> simp [recvLoop, hd]

/-- The loop of `recvFile` on a connection that closes before the requested
size is reached: it never stops, whatever the number of iterations allowed. -/
theorem recvLoop_starved (fuel : Nat) : ∀ (inp : Input) (buf : List Byte) (size total : Int),
    (∀ x ∈ inp, x ≠ none) → total + (pending inp : Int) < size →
    recvLoop fuel inp buf size total = Outcome.outOfFuel := by
  induction fuel with
  | zero =>
    intro inp buf size total _ hlt
    have : total < size := by omega
    simp [recvLoop, this]
  | succ fuel ih =>
    intro inp buf size total hsome hlt
    have hts : total < size := by omega
    cases inp with
    | nil =>
      simp only [recvLoop, hts, if_true, recv]
      have := ih [] (buf ++ []) size (total + 0) (by simp) (by simpa [pending] using hlt)
      simpa using this
    | cons x rest =>
      cases x with
      | none => exact absurd rfl (hsome none (List.mem_cons_self _ _))
      | some bs =>
        have hrest : ∀ x ∈ rest, x ≠ none := fun x hx => hsome x (List.mem_cons_of_mem _ hx)
        simp only [pending] at hlt
        have hle : bs.length ≤ (size - total).toNat := by omega
        simp only [recvLoop, hts, if_true, recv, hle]
        have hne : ¬ ((bs.length : Int) = -1) := by omega
        simp only [hne, if_false]
        exact ih rest (buf ++ bs) size (total + bs.length) hrest (by push_cast at hlt ⊢; omega)

theorem recvFile_zero (fuel : Nat) (inp : Input) :
    recvFile fuel inp ((0 : Nat) : Int) = Outcome.ret ([], inp) := by
  unfold recvFile
  exact recvLoop_done fuel inp [] _ 0 (by simp)

/-- One call of `recvFile` when the next arrival holds at least the bytes
asked for: one `recv` delivers them and the rest of the arrival stays
queued. -/
theorem recvFile_take (fuel : Nat) (bs : List Byte) (rest : Input) (n : Nat)
    (hpos : 0 < n) (hn : n ≤ bs.length) :
    recvFile (fuel + 1) (some bs :: rest) (n : Int) =
      Outcome.ret (bs.take n, if bs.length = n then rest else some (bs.drop n) :: rest) := by
  unfold recvFile
  have h0 : (0 : Int) < (n : Int) := by omega
  simp only [recvLoop, h0, if_true, recv, sub_zero, Int.toNat_ofNat]
  by_cases he : bs.length = n
  · subst he
    have hne : ¬ ((bs.length : Int) = -1) := by omega
    simp only [le_refl, if_true, hne, if_false]
    rw [recvLoop_done _ _ _ _ _ (by omega)]
    simp
  · have hle : ¬ bs.length ≤ n := by omega
    have hne : ¬ ((n : Int) = -1) := by omega
    simp only [hle, if_false, hne, he]
    rw [recvLoop_done _ _ _ _ _ (by omega)]
    simp

/-- A call of `recvFile` for `n` bytes, `n` possibly zero, when the next
arrival holds at least `n` bytes. -/
theorem recvFile_front (fuel : Nat) (bs : List Byte) (rest : Input) (n : Nat)
    (hlen : 0 < bs.length) (hn : n ≤ bs.length) :
    recvFile (fuel + 1) (some bs :: rest) (n : Int) =
      Outcome.ret (bs.take n, if bs.length = n then rest else some (bs.drop n) :: rest) := by
  rcases Nat.eq_zero_or_pos n with h0 | hpos
  · subst h0
    rw [recvFile_zero]
    have : ¬ bs.length = 0 := by omega
    simp [this]
  · exact recvFile_take fuel bs rest n hpos hn

theorem ntohs_ushortAt (h : Host) (a b : Byte) (m : List Byte) :
    ntohs h (ushortAt h (a :: b :: m)) = 256 * a.val + b.val := by
  unfold ntohs ushortAt
  have ha := a.isLt
  have hb := b.isLt
  cases h.littleEndian
  · simp only [List.getD_cons_zero, List.getD_cons_succ, Bool.false_eq_true, if_false]
    omega
  · simp only [List.getD_cons_zero, List.getD_cons_succ, if_true]
    omega

/-- What one call of `recvPack` does when the next arrival holds all the
bytes it asks for: with `P = sizeof(&packLen)` it takes `P` bytes for the
length, of which the first two are used, the next 8 bytes as tag and the
next `dataLen` bytes as payload. -/
theorem recvPack_single (h : Host) (fuel : Nat) (a b : Byte) (m : List Byte) (rest : Input)
    (hP : 2 ≤ h.ptrSize)
    (hlen : h.ptrSize + 8 + dataLenOf (256 * a.val + b.val) ≤ (a :: b :: m).length) :
    recvPack h (fuel + 1) (some (a :: b :: m) :: rest) =
      Outcome.ret
        (cstr (((a :: b :: m).drop h.ptrSize).take 8),
         cstr (((a :: b :: m).drop (h.ptrSize + 8)).take (dataLenOf (256 * a.val + b.val))),
         if (a :: b :: m).length = h.ptrSize + 8 + dataLenOf (256 * a.val + b.val) then rest
         else some ((a :: b :: m).drop (h.ptrSize + 8 + dataLenOf (256 * a.val + b.val))) :: rest) := by
  generalize hbs : (a :: b :: m) = bs at hlen ⊢
  generalize hdl : dataLenOf (256 * a.val + b.val) = dl at hlen ⊢
  have hpk : ∀ k, 2 ≤ k → dataLenOf (ntohs h (ushortAt h (bs.take k))) = dl := by
    intro k hk
    obtain ⟨k2, rfl⟩ : ∃ k2, k = k2 + 1 + 1 := ⟨k - 2, by omega⟩
    rw [← hbs, ← hdl]
    simp only [List.take_succ_cons]
    rw [ntohs_ushortAt]
  unfold recvPack
  have hne1 : ¬ bs.length = h.ptrSize := by omega
  rw [recvFile_take fuel bs rest h.ptrSize (by omega) (by omega)]
  simp only [hne1, if_false]
  have hl2 : (bs.drop h.ptrSize).length = bs.length - h.ptrSize := by simp
  simp only [ARG_LEN]
  rw [recvFile_take fuel (bs.drop h.ptrSize) rest 8 (by omega) (by omega)]
  simp only [hpk h.ptrSize hP]
  by_cases he : (bs.drop h.ptrSize).length = 8
  · have hdl0 : dl = 0 := by omega
    subst hdl0
    have he2 : bs.length = h.ptrSize + 8 + 0 := by omega
    simp only [he, if_true, recvFile_zero, he2]
    simp
  · have hl3 : ((bs.drop h.ptrSize).drop 8).length = bs.length - h.ptrSize - 8 := by
      simp only [List.length_drop]
    simp only [he, if_false]
    rw [recvFile_front fuel _ rest dl (by omega) (by omega)]
    rw [hl3]
    simp only [List.drop_drop]
    by_cases he3 : bs.length - h.ptrSize - 8 = dl
    · have : bs.length = h.ptrSize + 8 + dl := by omega
      rw [if_pos he3, if_pos this]
    · have : ¬ bs.length = h.ptrSize + 8 + dl := by omega
      rw [if_neg he3, if_neg this]

/-! ## Packet codec: claims C1, C2, C8, C9 -/

theorem wire_len_decode (payload : List Byte) (hp : payload.length ≤ 65525) :
    dataLenOf (256 * (Fin.ofNat ((2 + 8 + payload.length) / 256) : Byte).val +
      (Fin.ofNat ((2 + 8 + payload.length) % 256) : Byte).val) = payload.length := by
  simp only [Fin.ofNat, dataLenOf, toUShort, ARG_LEN]
  omega

theorem recvFile_starved (fuel : Nat) (inp : Input) (n : Int)
    (hsome : ∀ x ∈ inp, x ≠ none) (hlt : (pending inp : Int) < n) :
    recvFile fuel inp n = Outcome.outOfFuel :=
  recvLoop_starved fuel inp [] n 0 hsome (by omega)

/-- With a length read of 2 bytes, which is `sizeof(packLen)` and what
`sendPack` writes, the round trip holds: `recvPack` returns the tag and the
payload that `sendPack` was given and consumes that one packet. -/
theorem recvPack_sendPack_of_two (h : Host) (fd : Fd) (option data : List Byte) (fuel : Nat)
    (rest : Input) (hP : h.ptrSize = 2)
    (ho : strlen option ≤ ARG_LEN) (hd : strlen data ≤ MAX_PACK_PAYLOAD_LEN) :
    recvPack h (fuel + 1) (some (sentOn fd (sendPack h fd option data)) :: rest) =
      Outcome.ret (cstr option, cstr data, rest) := by
  rw [sentOn_sendPack h fd option data ho]
  have hcp : cstr (cstr data) = cstr data := cstr_cstr data
  have hco := cstr_append_zeros option (8 - (cstr option).length)
  unfold strlen at ho hd
  simp only [ARG_LEN, MAX_PACK_PAYLOAD_LEN] at ho hd
  generalize cstr option = t at ho hco
  generalize cstr data = p at hd hcp
  have hdec := wire_len_decode p (by omega)
  have hw : wirePacket t p =
      (Fin.ofNat ((2 + 8 + p.length) / 256) : Byte) ::
        (Fin.ofNat ((2 + 8 + p.length) % 256) : Byte) ::
          ((t ++ List.replicate (8 - t.length) 0) ++ p) := by
    simp [wirePacket]
  have hfl : (t ++ List.replicate (8 - t.length) 0).length = 8 := by
    simp only [List.length_append, List.length_replicate]; omega
  rw [hw]
  rw [recvPack_single h fuel _ _ _ rest (by omega)
    (by rw [hdec, hP]; simp only [List.length_cons, List.length_append, hfl]; omega)]
  rw [hdec, hP]
  have e1 : (2 : Nat) + 8 = 10 := rfl
  simp only [e1, List.drop_succ_cons, List.drop_zero]
  have h1 : List.take 8 ((t ++ List.replicate (8 - t.length) 0) ++ p) =
      t ++ List.replicate (8 - t.length) 0 := by
    rw [List.take_append_of_le_length (by omega), List.take_of_length_le (by omega)]
  have h2 : List.drop 8 ((t ++ List.replicate (8 - t.length) 0) ++ p) = p := by
    rw [List.drop_append_of_le_length (by omega), List.drop_of_length_le (by omega),
      List.nil_append]
  have h3 : ((Fin.ofNat ((10 + p.length) / 256) : Byte) ::
      (Fin.ofNat ((10 + p.length) % 256) : Byte) ::
        ((t ++ List.replicate (8 - t.length) 0) ++ p)).length = 10 + p.length := by
    simp only [List.length_cons, List.length_append, hfl]; omega
  rw [h1, h2, List.take_length, hco, hcp, if_pos h3]

/-- C1, round trip of the packet codec, on every host whose pointers have
more than 2 bytes: when `recvPack` is given the byte stream that
`sendPack(tag, payload)` wrote and nothing more, it does not return
`(tag, payload)`; it asks for `sizeof(&packLen) - 2` bytes more than the
packet has and never returns, however many iterations its read loop is
allowed. -/
theorem recvPack_sendPack_never_returns (h : Host) (fd : Fd) (option data : List Byte)
    (fuel : Nat) (hP : 2 < h.ptrSize)
    (ho : strlen option ≤ ARG_LEN) (hd : strlen data ≤ MAX_PACK_PAYLOAD_LEN) :
    recvPack h fuel [some (sentOn fd (sendPack h fd option data))] = Outcome.outOfFuel := by
  rw [sentOn_sendPack h fd option data ho]
  unfold strlen at ho hd
  simp only [ARG_LEN, MAX_PACK_PAYLOAD_LEN] at ho hd
  generalize cstr option = t at ho
  generalize cstr data = p at hd
  have hP0 : (0 : Int) < (h.ptrSize : Int) := by omega
  cases fuel with
  | zero => simp [recvPack, recvFile, recvLoop, hP0]
  | succ fuel =>
    have hwl : (wirePacket t p).length = 10 + p.length := wirePacket_length t p ho
    have hdec := wire_len_decode p (by omega)
    have hw : wirePacket t p =
        (Fin.ofNat ((2 + 8 + p.length) / 256) : Byte) ::
          (Fin.ofNat ((2 + 8 + p.length) % 256) : Byte) ::
            ((t ++ List.replicate (8 - t.length) 0) ++ p) := by
      simp [wirePacket]
    generalize wirePacket t p = w at hwl hw
    unfold recvPack
    rcases Nat.lt_or_ge (10 + p.length) h.ptrSize with hbig | hfit
    · rw [recvFile_starved (fuel + 1) [some w] _ (by simp)
        (by simp only [pending, hwl]; push_cast; omega)]
    · rw [recvFile_take fuel w [] h.ptrSize (by omega) (by omega)]
      have hpk : dataLenOf (ntohs h (ushortAt h (w.take h.ptrSize))) = p.length := by
        obtain ⟨k, hk⟩ : ∃ k, h.ptrSize = k + 1 + 1 := ⟨h.ptrSize - 2, by omega⟩
        rw [hw, hk]
        simp only [List.take_succ_cons]
        rw [ntohs_ushortAt]
        exact hdec
      simp only [hpk, ARG_LEN]
      by_cases he1 : w.length = h.ptrSize
      · simp only [he1, if_true]
        rw [recvFile_starved (fuel + 1) [] _ (by simp) (by simp [pending])]
      · simp only [he1, if_false]
        have hl2 : (w.drop h.ptrSize).length = 10 + p.length - h.ptrSize := by
          simp only [List.length_drop, hwl]
        rcases Nat.lt_or_ge (w.drop h.ptrSize).length 8 with hlt | hge
        · rw [recvFile_starved (fuel + 1) [some (w.drop h.ptrSize)] _ (by simp)
            (by simp only [pending]; push_cast; omega)]
        · rw [recvFile_take fuel (w.drop h.ptrSize) [] 8 (by omega) (by omega)]
          simp only []
          by_cases he : (w.drop h.ptrSize).length = 8
          · simp only [he, if_true]
            rw [recvFile_starved (fuel + 1) [] _ (by simp)
              (by simp only [pending]; push_cast; omega)]
          · simp only [he, if_false]
            rw [recvFile_starved (fuel + 1) _ _ (by simp)
              (by simp only [pending, List.length_drop, hwl]; push_cast; omega)]

theorem recvPack_sendPack_never_returns_witness :
    2 < lp64.ptrSize ∧ strlen (lit "LIST") ≤ ARG_LEN ∧
      strlen (lit "") ≤ MAX_PACK_PAYLOAD_LEN ∧
      recvPack lp64 100 [some (sentOn 4 (sendPack lp64 4 (lit "LIST") (lit "")))] =
        Outcome.outOfFuel :=
  ⟨by decide, by decide, by decide,
    recvPack_sendPack_never_returns lp64 4 (lit "LIST") (lit "") 100 (by decide) (by decide)
      (by decide)⟩

/-- C2 as the specification states it fails on a payload with a zero byte:
for the three payload bytes `A`, 0, `B`, `sendPack` writes the packet of the
one-byte payload `A`, 11 bytes and not 13. -/
theorem sendPack_zero_byte :
    sentOn 5 (sendPack lp64 5 (lit "FILE") [65, 0, 66]) = wirePacket (lit "FILE") [65] ∧
      (sentOn 5 (sendPack lp64 5 (lit "FILE") [65, 0, 66])).length ≠
        10 + ([65, 0, 66] : List Byte).length ∧
      sentOn 5 (sendPack lp64 5 (lit "FILE") [65, 0, 66]) ≠
        wirePacket (lit "FILE") [65, 0, 66] := by
  decide

/-- C2, amended, wire format of encode: for a tag of at most 8 bytes and a
payload of at most 512 bytes, neither holding a zero byte, `sendPack` sends,
on its socket and nothing else, exactly `10 + len(payload)` bytes: the two
bytes of `2 + 8 + len(payload)`, most significant first, the tag padded with
null bytes to 8 bytes, and the payload unchanged. -/
theorem sendPack_wire_format (h : Host) (sockfd : Fd) (option data : List Byte)
    (hoz : ∀ b ∈ option, b ≠ 0) (hdz : ∀ b ∈ data, b ≠ 0)
    (ho : option.length ≤ 8) (hd : data.length ≤ 512) :
    sendPack h sockfd option data =
        ([Fin.ofNat ((2 + 8 + data.length) / 256), Fin.ofNat ((2 + 8 + data.length) % 256)] ++
          (option ++ List.replicate (8 - option.length) 0) ++ data).map (Event.send sockfd) ∧
      (sentOn sockfd (sendPack h sockfd option data)).length = 10 + data.length ∧
      (option ++ List.replicate (8 - option.length) 0).length = 8 ∧
      2 + 8 + data.length < 65536 := by
  have co : cstr option = option := cstr_of_nonzero option hoz
  have cd : cstr data = data := cstr_of_nonzero data hdz
  have hs : strlen option ≤ ARG_LEN := by
    simp only [strlen, co, ARG_LEN]; exact ho
  refine ⟨?_, ?_, ?_, ?_⟩
  · rw [sendPack_eq_wire h sockfd option data hs, co, cd]
    rfl
  · rw [sentOn_sendPack h sockfd option data hs, co, cd, wirePacket_length _ _ ho]
  · simp only [List.length_append, List.length_replicate]
    omega
  · omega

theorem sendPack_wire_format_witness :
    (∀ b ∈ lit "FILE", b ≠ 0) ∧ (∀ b ∈ lit "abc", b ≠ 0) ∧
      (lit "FILE").length ≤ 8 ∧ (lit "abc").length ≤ 512 ∧
      sendPack lp64 5 (lit "FILE") (lit "abc") =
        ([0, 13, 70, 73, 76, 69, 0, 0, 0, 0, 97, 98, 99] : List Byte).map (Event.send 5) :=
  have hz1 : ∀ b ∈ lit "FILE", b ≠ 0 := by
    have hall : (lit "FILE").all (fun b => b ≠ 0) = true := by decide
    simpa using hall
  have hz2 : ∀ b ∈ lit "abc", b ≠ 0 := by
    have hall : (lit "abc").all (fun b => b ≠ 0) = true := by decide
    simpa using hall
  have hl : (lit "abc").length ≤ 512 := by
    show (3 : Nat) ≤ 512
    omega
  ⟨hz1, hz2, by decide, hl,
    (sendPack_wire_format lp64 5 (lit "FILE") (lit "abc") hz1 hz2 (by decide) hl).1⟩

/-- C8, read sizes of decode.  For a stream whose next arrival starts with a
length field of value `n ≥ 10` and holds all the bytes asked for, one call
of `recvPack` takes `P = sizeof(&packLen)` bytes, the size of a pointer, for
the length field, then 8 bytes for the tag, then `n - 10` bytes for the
payload: it returns as tag the string in bytes `P` to `P + 7` and consumes
`P + n - 2` bytes.  Where a pointer has more than 2 bytes that is not 2 bytes
for the length, not bytes 2 to 9 for the tag and not `n` bytes in all. -/
theorem recvPack_reads (h : Host) (fuel : Nat) (a b : Byte) (m : List Byte) (rest : Input)
    (hP : 2 ≤ h.ptrSize) (hn : 10 ≤ 256 * a.val + b.val)
    (hlen : h.ptrSize + (256 * a.val + b.val) - 2 ≤ (a :: b :: m).length) :
    recvPack h (fuel + 1) (some (a :: b :: m) :: rest) =
      Outcome.ret
        (cstr (((a :: b :: m).drop h.ptrSize).take 8),
         cstr (((a :: b :: m).drop (h.ptrSize + 8)).take (256 * a.val + b.val - 10)),
         if (a :: b :: m).length = h.ptrSize + (256 * a.val + b.val) - 2 then rest
         else some ((a :: b :: m).drop (h.ptrSize + (256 * a.val + b.val) - 2)) :: rest) := by
  have ha := a.isLt
  have hb := b.isLt
  have hdl : dataLenOf (256 * a.val + b.val) = 256 * a.val + b.val - 10 := by
    simp only [dataLenOf, toUShort, ARG_LEN]
    omega
  have key := recvPack_single h fuel a b m rest hP (by rw [hdl]; omega)
  rw [hdl] at key
  have e1 : h.ptrSize + 8 + (256 * a.val + b.val - 10) = h.ptrSize + (256 * a.val + b.val) - 2 := by
    omega
  rw [e1] at key
  exact key

theorem recvPack_reads_witness :
    2 ≤ lp64.ptrSize ∧ 10 ≤ 256 * (0 : Byte).val + (10 : Byte).val ∧
      lp64.ptrSize + (256 * (0 : Byte).val + (10 : Byte).val) - 2 ≤
        ((0 : Byte) :: 10 :: (lit "LIST" ++ [0, 0, 0, 0] ++
          wirePacket (lit "GET") (lit "a.txt"))).length ∧
      (0 : Byte) :: 10 :: (lit "LIST" ++ [0, 0, 0, 0] ++ wirePacket (lit "GET") (lit "a.txt")) =
        wirePacket (lit "LIST") [] ++ wirePacket (lit "GET") (lit "a.txt") ∧
      recvPack lp64 1
          [some ((0 : Byte) :: 10 :: (lit "LIST" ++ [0, 0, 0, 0] ++
            wirePacket (lit "GET") (lit "a.txt")))] =
        Outcome.ret ([], [], [some ([0, 0, 0, 0] ++ lit "a.txt")]) :=
  ⟨by decide, by decide, by decide, by decide,
    (recvPack_reads lp64 0 0 10
      (lit "LIST" ++ [0, 0, 0, 0] ++ wirePacket (lit "GET") (lit "a.txt")) []
      (by decide) (by decide) (by decide)).trans (by decide)⟩

/-- C9, closed connection while reading: when the arrivals that precede the
close of the connection hold fewer bytes than the size asked for, `recvFile`
neither returns nor leaves through `exit(1)`: `recv` gives 0, the byte count
stays below the size and the loop goes on, however many iterations it is
allowed. -/
theorem recvFile_closed_never_ends (fuel : Nat) (inp : Input) (presetSize : Int)
    (hsome : ∀ x ∈ inp, x ≠ none) (hlt : (pending inp : Int) < presetSize) :
    recvFile fuel inp presetSize = Outcome.outOfFuel :=
  recvFile_starved fuel inp presetSize hsome hlt

theorem recvFile_closed_never_ends_witness :
    (∀ x ∈ ([some [1, 2]] : Input), x ≠ none) ∧ (pending [some [1, 2]] : Int) < 4 ∧
      recvFile 1000 [some [1, 2]] 4 = Outcome.outOfFuel :=
  ⟨by decide, by decide, recvFile_closed_never_ends 1000 [some [1, 2]] 4 (by decide) (by decide)⟩


/-! ## Lemmas on the transfer engine -/

theorem wireStream_append (a b : List (List Byte × List Byte)) :
    wireStream (a ++ b) = wireStream a ++ wireStream b := by
  induction a with
  | nil => rfl
  | cons p a ih => simp [wireStream, ih]

theorem sentOn_flatMap_sendPack (h : Host) (d : Fd) (tag : List Byte)
    (htag : strlen tag ≤ ARG_LEN) (payloads : List (List Byte)) :
    sentOn d (payloads.flatMap fun p => sendPack h d tag p) =
      wireStream (payloads.map fun p => (cstr tag, cstr p)) := by
  induction payloads with
  | nil => rfl
  | cons p ps ih =>
    simp only [List.flatMap_cons, List.map_cons, wireStream, sentOn_append, ih,
      sentOn_sendPack h d tag p htag]

theorem sentOn_flatMap_sendPack_ne (h : Host) (c d : Fd) (tag : List Byte) (hne : d ≠ c)
    (payloads : List (List Byte)) :
    sentOn c (payloads.flatMap fun p => sendPack h d tag p) = [] := by
  induction payloads with
  | nil => rfl
  | cons p ps ih =>
    simp only [List.flatMap_cons, sentOn_append, ih, sentOn_sendPack_ne h c d tag p hne,
      List.append_nil]

theorem sendNames_eq_flatMap (h : Host) (d : Fd) (names : List (List Byte)) :
    sendNames h d names = names.flatMap fun n => sendPack h d (lit "FNAME") n := by
  induction names with
  | nil => rfl
  | cons n ns ih => simp only [sendNames, List.flatMap_cons, ih]

theorem listLoop_length : ∀ (es : List DirEntry) (acc : List (List Byte)) (n : Nat) (info : Bool),
    n = acc.length → (listLoop es acc n info).2 = (listLoop es acc n info).1.length := by
  intro es
  induction es with
  | nil => intro acc n info hn; simpa [listLoop] using hn
  | cons e es ih =>
    intro acc n info hn
    simp only [listLoop]
    split
    · exact ih acc n _ hn
    · exact ih _ _ _ (by simp [hn])

theorem listLoop_stat_ok : ∀ (es : List DirEntry) (acc : List (List Byte)) (n : Nat) (info : Bool),
    (∀ e ∈ es, e.isDir ≠ none) → (listLoop es acc n info).1 = acc ++ nonDirNames es := by
  intro es
  induction es with
  | nil => intro acc n info _; simp [listLoop, nonDirNames]
  | cons e es ih =>
    intro acc n info hs
    have hes : ∀ x ∈ es, x.isDir ≠ none := fun x hx => hs x (List.mem_cons_of_mem _ hx)
    have he : e.isDir ≠ none := hs e (List.mem_cons_self _ _)
    cases hd : e.isDir with
    | none => exact absurd hd he
    | some dflag =>
      cases dflag with
      | true =>
        simp only [listLoop, hd, if_true]
        rw [ih acc n true hes]
        simp [nonDirNames, hd]
      | false =>
        simp only [listLoop, hd, Bool.false_eq_true, if_false]
        rw [ih _ _ false hes]
        simp [nonDirNames, hd]

theorem listLoop_names : ∀ (es : List DirEntry) (acc : List (List Byte)) (n : Nat) (info : Bool),
    (∀ x ∈ acc, cstr x = x) → ∀ x ∈ (listLoop es acc n info).1, cstr x = x := by
  intro es
  induction es with
  | nil => intro acc n info ha; simpa [listLoop] using ha
  | cons e es ih =>
    intro acc n info ha
    simp only [listLoop]
    split
    · exact ih acc n _ ha
    · refine ih _ _ _ ?_
      intro x hx
      rcases List.mem_append.mp hx with h1 | h1
      · exact ha x h1
      · rw [List.mem_singleton.mp h1, cstr_cstr]

theorem searchFile_eq_true (filename : List Byte) (names : List (List Byte)) :
    searchFile filename names = true ↔ ∃ n ∈ names, cstr filename = cstr n := by
  induction names with
  | nil => simp [searchFile]
  | cons n ns ih =>
    by_cases hn : cstr filename = cstr n
    · simp [searchFile, streq, hn]
    · simp [searchFile, streq, hn, ih]

theorem fileChunks_nil : fileChunks [] = [] := by
  simp [fileChunks]

theorem fileChunks_cons (l : List Byte) (hne : l ≠ []) :
    fileChunks l = l.take 512 :: fileChunks (l.drop 512) := by
  have hpos : 0 < l.length := List.length_pos.mpr hne
  have hk : (l.length + 511) / 512 = ((l.drop 512).length + 511) / 512 + 1 := by
    simp only [List.length_drop]
    omega
  unfold fileChunks
  rw [hk, List.range_succ_eq_map]
  simp only [List.map_cons, List.map_map, Nat.mul_zero, List.drop_zero]
  congr 1
  apply List.map_congr_left
  intro i _
  simp only [Function.comp, List.drop_drop, Nat.succ_eq_add_one]
  congr 2
  omega

theorem fileChunks_flatten (k : Nat) : ∀ l : List Byte, l.length ≤ k →
    (fileChunks l).flatten = l := by
  induction k with
  | zero =>
    intro l hl
    have : l = [] := List.eq_nil_of_length_eq_zero (by omega)
    subst this
    simp [fileChunks_nil]
  | succ k ih =>
    intro l hl
    by_cases hne : l = []
    · subst hne; simp [fileChunks_nil]
    · have hpos : 0 < l.length := List.length_pos.mpr hne
      rw [fileChunks_cons l hne, List.flatten_cons,
        ih (l.drop 512) (by simp only [List.length_drop]; omega), List.take_append_drop]

theorem fileChunks_mem (l ch : List Byte) (hch : ch ∈ fileChunks l) :
    ch ≠ [] ∧ ch.length ≤ 512 := by
  unfold fileChunks at hch
  obtain ⟨i, hi, rfl⟩ := List.mem_map.mp hch
  have hi2 : i < (l.length + 511) / 512 := List.mem_range.mp hi
  have hlen : ((l.drop (512 * i)).take 512).length = min 512 (l.length - 512 * i) := by
    simp
  constructor
  · intro hnil
    rw [hnil] at hlen
    simp only [List.length_nil] at hlen
    omega
  · omega

theorem fileChunks_lengths_1000 (l : List Byte) (hl : l.length = 1000) :
    (fileChunks l).map List.length = [512, 488] := by
  unfold fileChunks
  rw [hl]
  have : (1000 + 511) / 512 = 2 := by decide
  rw [this]
  simp [List.range_succ, hl]

/-- The read loop, given enough iterations: one `FILE` packet per chunk of
512 bytes, then one for the read of zero bytes that ends the loop. -/
theorem freadLoop_spec (h : Host) (d : Fd) : ∀ (fuel : Nat) (rest : List Byte),
    rest.length < fuel →
    freadLoop h d fuel rest =
      Outcome.ret (((fileChunks rest).flatMap fun ch => sendPack h d (lit "FILE") ch) ++
        sendPack h d (lit "FILE") []) := by
  intro fuel
  induction fuel with
  | zero => intro rest hl; omega
  | succ fuel ih =>
    intro rest hl
    by_cases hne : rest = []
    · subst hne
      simp only [freadLoop, List.take_nil, List.length_nil, gt_iff_lt, lt_self_iff_false,
        if_false, fileChunks_nil, List.flatMap_nil, List.nil_append]
      rw [sendPack_congr h d _ [0] [] (by decide)]
    · have hpos : 0 < rest.length := List.length_pos.mpr hne
      have htl : 0 < (rest.take MAX_PACK_PAYLOAD_LEN).length := by
        simp only [MAX_PACK_PAYLOAD_LEN, List.length_take]; omega
      simp only [freadLoop, gt_iff_lt, htl, if_true]
      rw [ih (rest.drop MAX_PACK_PAYLOAD_LEN)
        (by simp only [MAX_PACK_PAYLOAD_LEN, List.length_drop]; omega)]
      simp only [MAX_PACK_PAYLOAD_LEN]
      rw [fileChunks_cons rest hne, List.flatMap_cons,
        sendPack_congr h d _ (rest.take 512 ++ [0]) (rest.take 512)
          (cstr_append_zero (rest.take 512) [])]
      simp only [List.append_assoc]

/-- Whenever the read loop returns, what it did is a run of `FILE` packets
on the data socket. -/
theorem freadLoop_shape (h : Host) (d : Fd) : ∀ (fuel : Nat) (rest : List Byte) (t : Trace),
    freadLoop h d fuel rest = Outcome.ret t →
    ∃ payloads : List (List Byte), t = payloads.flatMap fun p => sendPack h d (lit "FILE") p := by
  intro fuel
  induction fuel with
  | zero => intro rest t ht; simp [freadLoop] at ht
  | succ fuel ih =>
    intro rest t ht
    simp only [freadLoop] at ht
    split at ht
    · cases hrec : freadLoop h d fuel (rest.drop MAX_PACK_PAYLOAD_LEN) with
      | exited => rw [hrec] at ht; simp at ht
      | outOfFuel => rw [hrec] at ht; simp at ht
      | ret t2 =>
        rw [hrec] at ht
        simp only [Outcome.ret.injEq] at ht
        obtain ⟨ps, hps⟩ := ih _ _ hrec
        exact ⟨(rest.take MAX_PACK_PAYLOAD_LEN ++ [0]) :: ps, by
          rw [← ht, hps, List.flatMap_cons]⟩
    · simp only [Outcome.ret.injEq] at ht
      exact ⟨[rest.take MAX_PACK_PAYLOAD_LEN ++ [0]], by rw [← ht]; simp⟩


theorem take_listLoop (es : List DirEntry) (info : Bool) :
    (listLoop es [] 0 info).1.take (listLoop es [] 0 info).2 = (listLoop es [] 0 info).1 := by
  rw [listLoop_length es [] 0 info rfl, List.take_length]

theorem sentOn_done_close_data (h : Host) (c d : Fd) (hcd : c ≠ d) :
    sentOn d (sendPack h d (lit "DONE") (lit "") ++ sendPack h c (lit "CLOSE") (lit "")) =
      wireStream [(lit "DONE", [])] := by
  rw [sentOn_append, sentOn_sendPack h d _ _ (by decide), sentOn_sendPack_ne h d c _ _ hcd]
  have e1 : cstr (lit "DONE") = lit "DONE" := by decide
  have e2 : cstr (lit "") = [] := by decide
  simp [wireStream, e1, e2]

theorem sentOn_done_close_control (h : Host) (c d : Fd) (hcd : c ≠ d) :
    sentOn c (sendPack h d (lit "DONE") (lit "") ++ sendPack h c (lit "CLOSE") (lit "")) =
      wireStream [(lit "CLOSE", [])] := by
  rw [sentOn_append, sentOn_sendPack h c _ _ (by decide),
    sentOn_sendPack_ne h c d _ _ (Ne.symm hcd)]
  have e1 : cstr (lit "CLOSE") = lit "CLOSE" := by decide
  have e2 : cstr (lit "") = [] := by decide
  simp [wireStream, e1, e2]

/-- The `LIST` branch. -/
theorem dataConnection_LIST (h : Host) (fuel : Nat) (env : Env) (c d : Fd)
    (cmd filename : List Byte) (entries : List DirEntry) (hdir : env.dir = some entries)
    (hcmd : streq cmd (lit "LIST") = true) :
    dataConnection h fuel env c d cmd filename =
      Outcome.ret (0, sendNames h d (listLoop entries [] 0 env.info0).1 ++
        (sendPack h d (lit "DONE") (lit "") ++ sendPack h c (lit "CLOSE") (lit ""))) := by
  have htk := take_listLoop entries env.info0
  rcases hL : listLoop entries [] 0 env.info0 with ⟨fl, nf⟩
  rw [hL] at htk
  simp only [dataConnection, listFiles, hdir, hL, hcmd, if_true]
  rw [htk]

/-- The `GET` branch when the search loop finds no match. -/
theorem dataConnection_GET_missing (h : Host) (fuel : Nat) (env : Env) (c d : Fd)
    (cmd filename : List Byte) (entries : List DirEntry) (hdir : env.dir = some entries)
    (hl : streq cmd (lit "LIST") = false) (hg : streq cmd (lit "GET") = true)
    (hs : searchFile filename (listLoop entries [] 0 env.info0).1 = false) :
    dataConnection h fuel env c d cmd filename =
      Outcome.ret (-1, sendPack h c (lit "ERROR") (lit "File not found") ++
        (sendPack h d (lit "DONE") (lit "") ++ sendPack h c (lit "CLOSE") (lit ""))) := by
  have htk := take_listLoop entries env.info0
  rcases hL : listLoop entries [] 0 env.info0 with ⟨fl, nf⟩
  rw [hL] at htk hs
  simp only at htk hs
  simp only [dataConnection, listFiles, hdir, hL, hl, hg, htk, hs, if_true, Bool.false_eq_true,
    if_false, Bool.not_false]

/-- The `GET` branch when the name is found and `fopen` fails. -/
theorem dataConnection_GET_noopen (h : Host) (fuel : Nat) (env : Env) (c d : Fd)
    (cmd filename : List Byte) (entries : List DirEntry) (hdir : env.dir = some entries)
    (hl : streq cmd (lit "LIST") = false) (hg : streq cmd (lit "GET") = true)
    (hs : searchFile filename (listLoop entries [] 0 env.info0).1 = true)
    (ho : env.fopen (cstr filename) = none) :
    dataConnection h fuel env c d cmd filename =
      Outcome.ret (-1, [Event.fopen (cstr filename)] ++
        sendPack h c (lit "ERROR") (lit "File wont open") ++
        (sendPack h d (lit "DONE") (lit "") ++ sendPack h c (lit "CLOSE") (lit ""))) := by
  have htk := take_listLoop entries env.info0
  rcases hL : listLoop entries [] 0 env.info0 with ⟨fl, nf⟩
  rw [hL] at htk hs
  simp only at htk hs
  simp only [dataConnection, listFiles, hdir, hL, hl, hg, htk, hs, ho, if_true,
    Bool.false_eq_true, if_false, Bool.not_true]

/-- The `GET` branch when the name is found and the file opens. -/
theorem dataConnection_GET_open (h : Host) (fuel : Nat) (env : Env) (c d : Fd)
    (cmd filename : List Byte) (entries : List DirEntry) (f : File)
    (hdir : env.dir = some entries)
    (hl : streq cmd (lit "LIST") = false) (hg : streq cmd (lit "GET") = true)
    (hs : searchFile filename (listLoop entries [] 0 env.info0).1 = true)
    (ho : env.fopen (cstr filename) = some f) :
    dataConnection h fuel env c d cmd filename =
      match freadLoop h d fuel f.content with
      | Outcome.exited => Outcome.exited
      | Outcome.outOfFuel => Outcome.outOfFuel
      | Outcome.ret t =>
        Outcome.ret ((if f.failing then -1 else 0), [Event.fopen (cstr filename)] ++
          sendPack h d (lit "FILE") filename ++ t ++
          (sendPack h d (lit "DONE") (lit "") ++ sendPack h c (lit "CLOSE") (lit ""))) := by
  have htk := take_listLoop entries env.info0
  rcases hL : listLoop entries [] 0 env.info0 with ⟨fl, nf⟩
  rw [hL] at htk hs
  simp only at htk hs
  simp only [dataConnection, listFiles, hdir, hL, hl, hg, htk, hs, ho, if_true,
    Bool.false_eq_true, if_false, Bool.not_true]

/-- The branch of any other command string. -/
theorem dataConnection_other (h : Host) (fuel : Nat) (env : Env) (c d : Fd)
    (cmd filename : List Byte) (entries : List DirEntry) (hdir : env.dir = some entries)
    (hl : streq cmd (lit "LIST") = false) (hg : streq cmd (lit "GET") = false) :
    dataConnection h fuel env c d cmd filename =
      Outcome.ret (-1, sendPack h d (lit "DONE") (lit "") ++
        sendPack h c (lit "CLOSE") (lit "")) := by
  rcases hL : listLoop entries [] 0 env.info0 with ⟨fl, nf⟩
  simp only [dataConnection, listFiles, hdir, hL, hl, hg, Bool.false_eq_true, if_false]

theorem fopen_not_mem_sendPack (h : Host) (fd : Fd) (option data n : List Byte) :
    Event.fopen n ∉ sendPack h fd option data := by
  intro hn
  simp only [sendPack, sendFile, List.mem_append, List.mem_map] at hn
  rcases hn with (⟨_, _, hx⟩ | ⟨_, _, hx⟩) | ⟨_, _, hx⟩ <;> cases hx


/-! ## Lemmas on the packets that a stream holds -/

theorem parsePackets_nil (fuel : Nat) : parsePackets fuel [] = [] := by
  cases fuel <;> rfl

theorem length_le_wireStream (pkts : List (List Byte × List Byte)) :
    pkts.length ≤ (wireStream pkts).length := by
  induction pkts with
  | nil => simp [wireStream]
  | cons p ps ih =>
    simp only [wireStream, wirePacket, List.length_cons, List.length_append, List.length_nil]
    omega

/-- A stream of packets with tags of at most 8 bytes and payloads that the
length field can express reads back as these packets, tags padded. -/
theorem parsePackets_wireStream : ∀ (pkts : List (List Byte × List Byte)) (fuel : Nat),
    pkts.length ≤ fuel → (∀ p ∈ pkts, p.1.length ≤ 8 ∧ p.2.length ≤ 65525) →
    parsePackets fuel (wireStream pkts) = pkts.map fun p => (padTag p.1, p.2) := by
  intro pkts
  induction pkts with
  | nil => intro fuel _ _; simp [wireStream, parsePackets_nil]
  | cons p ps ih =>
    intro fuel hf hb
    obtain ⟨f, rfl⟩ : ∃ f, fuel = f + 1 := ⟨fuel - 1, by simp at hf; omega⟩
    have hp := hb p (List.mem_cons_self _ _)
    have hps : ∀ q ∈ ps, q.1.length ≤ 8 ∧ q.2.length ≤ 65525 :=
      fun q hq => hb q (List.mem_cons_of_mem _ hq)
    have hfl : (p.1 ++ List.replicate (8 - p.1.length) (0 : Byte)).length = 8 := by
      simp only [List.length_append, List.length_replicate]; omega
    have hw : wireStream (p :: ps) =
        (Fin.ofNat ((2 + 8 + p.2.length) / 256) : Byte) ::
          (Fin.ofNat ((2 + 8 + p.2.length) % 256) : Byte) ::
            ((p.1 ++ List.replicate (8 - p.1.length) 0) ++ (p.2 ++ wireStream ps)) := by
      simp [wireStream, wirePacket]
    have hn : 256 * (Fin.ofNat ((2 + 8 + p.2.length) / 256) : Byte).val +
        (Fin.ofNat ((2 + 8 + p.2.length) % 256) : Byte).val - 10 = p.2.length := by
      simp only [Fin.ofNat]
      omega
    have h1 : List.take 8 ((p.1 ++ List.replicate (8 - p.1.length) 0) ++ (p.2 ++ wireStream ps)) =
        p.1 ++ List.replicate (8 - p.1.length) 0 := by
      rw [List.take_append_of_le_length (by omega), List.take_of_length_le (by omega)]
    have h2 : List.drop 8 ((p.1 ++ List.replicate (8 - p.1.length) 0) ++ (p.2 ++ wireStream ps)) =
        p.2 ++ wireStream ps := by
      rw [List.drop_append_of_le_length (by omega), List.drop_of_length_le (by omega),
        List.nil_append]
    have h3 : List.take p.2.length (p.2 ++ wireStream ps) = p.2 := by
      rw [List.take_append_of_le_length (le_refl _), List.take_length]
    have h4 : List.drop (8 + p.2.length)
        ((p.1 ++ List.replicate (8 - p.1.length) 0) ++ (p.2 ++ wireStream ps)) =
        wireStream ps := by
      rw [← List.drop_drop, h2, List.drop_left]
    rw [hw]
    simp only [parsePackets, hn, List.map_cons, h1, h2, h3, h4]
    rw [ih f (by simp at hf; omega) hps]
    rfl

theorem packetsOf_wireStream (pkts : List (List Byte × List Byte))
    (hb : ∀ p ∈ pkts, p.1.length ≤ 8 ∧ p.2.length ≤ 65525) :
    packetsOf (wireStream pkts) = pkts.map fun p => (padTag p.1, p.2) :=
  parsePackets_wireStream pkts _ (length_le_wireStream pkts) hb


/-! ## Transfer engine: claims C3, C5, C7 -/

/-- C3 as the specification states it fails on a file with a zero byte: for
the three bytes `A`, 0, `B` the data connection carries the announcement, one
`FILE` packet with the single byte `A`, the empty `FILE` packet and `DONE`;
the payloads do not add up to the file. -/
theorem dataConnection_get_zero_byte :
    streamOf 5 (dataConnection lp64 4 binaryFileEnv 4 5 (lit "GET") (lit "f")) =
        some (wireStream [(lit "FILE", lit "f"), (lit "FILE", [65]), (lit "FILE", []),
          (lit "DONE", [])]) ∧
      streamOf 5 (dataConnection lp64 4 binaryFileEnv 4 5 (lit "GET") (lit "f")) ≠
        some (wireStream ([(lit "FILE", lit "f")] ++
          (fileChunks [65, 0, 66]).map (fun ch => (lit "FILE", ch)) ++
          [(lit "FILE", []), (lit "DONE", [])])) := by
  decide

/-- C3, amended: `GET` of a file that is in the listing, opens, and holds no
zero byte.  With enough iterations allowed, `dataConnection` returns, and the
data connection carries the announcement packet, then one `FILE` packet per
chunk of the content, in order, then the empty `FILE` packet, then `DONE`.
The chunks concatenate to the content, they are `ceil(S / 512)` in number,
none is empty or longer than 512 bytes, and for 1000 bytes they have 512 and
488 bytes. -/
theorem dataConnection_get_chunks (h : Host) (fuel : Nat) (env : Env) (c d : Fd)
    (entries : List DirEntry) (filename : List Byte) (f : File)
    (hcd : c ≠ d) (hdir : env.dir = some entries)
    (hfound : cstr filename ∈ (listLoop entries [] 0 env.info0).1)
    (hopen : env.fopen (cstr filename) = some f)
    (hnul : ∀ b ∈ f.content, b ≠ 0) (hfuel : f.content.length < fuel) :
    ∃ t, dataConnection h fuel env c d (lit "GET") filename =
          Outcome.ret ((if f.failing then -1 else 0), t) ∧
      sentOn d t = wireStream ([(lit "FILE", cstr filename)] ++
        (fileChunks f.content).map (fun ch => (lit "FILE", ch)) ++
        [(lit "FILE", []), (lit "DONE", [])]) ∧
      (fileChunks f.content).flatten = f.content ∧
      (fileChunks f.content).length = (f.content.length + 511) / 512 ∧
      (∀ ch ∈ fileChunks f.content, ch ≠ [] ∧ ch.length ≤ 512) ∧
      (f.content.length = 1000 → (fileChunks f.content).map List.length = [512, 488]) := by
  have hs : searchFile filename (listLoop entries [] 0 env.info0).1 = true := by
    rw [searchFile_eq_true]
    exact ⟨cstr filename, hfound, (cstr_cstr filename).symm⟩
  have hrun := dataConnection_GET_open h fuel env c d (lit "GET") filename entries f hdir
    (by decide) (by decide) hs hopen
  rw [freadLoop_spec h d fuel f.content hfuel] at hrun
  simp only at hrun
  refine ⟨_, hrun, ?_, fileChunks_flatten _ _ (le_refl _), ?_, fileChunks_mem _,
    fileChunks_lengths_1000 _⟩
  · have e1 : cstr (lit "FILE") = lit "FILE" := by decide
    have hch : (fileChunks f.content).map (fun p => (cstr (lit "FILE"), cstr p)) =
        (fileChunks f.content).map (fun ch => (lit "FILE", ch)) := by
      apply List.map_congr_left
      intro ch hch
      have hz : ∀ b ∈ ch, b ≠ 0 := by
        intro b hb
        apply hnul b
        rw [← fileChunks_flatten _ _ (le_refl f.content.length)]
        exact List.mem_flatten.mpr ⟨ch, hch, hb⟩
      rw [cstr_of_nonzero ch hz, e1]
    have hfm := sentOn_flatMap_sendPack h d (lit "FILE") (by decide) (fileChunks f.content)
    rw [hch] at hfm
    have hlast : sentOn d (sendPack h d (lit "FILE") []) = wirePacket (lit "FILE") [] := by
      rw [sentOn_sendPack h d (lit "FILE") _ (by decide), e1, cstr_nil]
    have hfirst : sentOn d (sendPack h d (lit "FILE") filename) =
        wirePacket (lit "FILE") (cstr filename) := by
      rw [sentOn_sendPack h d (lit "FILE") _ (by decide), e1]
    rw [wireStream_append, wireStream_append]
    simp only [sentOn_append, sentOn_fopen, sentOn_nil, hfirst, hfm, hlast,
      sentOn_done_close_data h c d hcd, wireStream, List.append_assoc,
      List.append_nil, List.nil_append]
  · simp [fileChunks]

theorem dataConnection_get_chunks_witness :
    (4 : Fd) ≠ 5 ∧ textFileEnv.dir = some [{ d_name := lit ".", isDir := some true },
        { d_name := lit "a.txt", isDir := some false }] ∧
      (∀ b ∈ List.replicate 1000 (65 : Byte), b ≠ 0) ∧
      ∃ t, dataConnection lp64 1001 textFileEnv 4 5 (lit "GET") (lit "a.txt") =
            Outcome.ret ((if (File.mk (List.replicate 1000 65) false).failing then -1 else 0), t) ∧
        sentOn 5 t = wireStream ([(lit "FILE", cstr (lit "a.txt"))] ++
          (fileChunks (File.mk (List.replicate 1000 65) false).content).map
            (fun ch => (lit "FILE", ch)) ++
          [(lit "FILE", []), (lit "DONE", [])]) ∧
        (fileChunks (File.mk (List.replicate 1000 65) false).content).flatten =
          (File.mk (List.replicate 1000 65) false).content ∧
        (fileChunks (File.mk (List.replicate 1000 65) false).content).length =
          ((File.mk (List.replicate 1000 65) false).content.length + 511) / 512 ∧
        (∀ ch ∈ fileChunks (File.mk (List.replicate 1000 65) false).content,
          ch ≠ [] ∧ ch.length ≤ 512) ∧
        ((File.mk (List.replicate 1000 65) false).content.length = 1000 →
          (fileChunks (File.mk (List.replicate 1000 65) false).content).map List.length =
            [512, 488]) :=
  ⟨by decide, rfl, fun b hb => by rw [List.eq_of_mem_replicate hb]; decide,
    dataConnection_get_chunks lp64 1001 textFileEnv 4 5
      [{ d_name := lit ".", isDir := some true }, { d_name := lit "a.txt", isDir := some false }]
      (lit "a.txt") (File.mk (List.replicate 1000 65) false)
      (by decide) rfl (by decide) rfl
      (fun b hb => by rw [List.eq_of_mem_replicate hb]; decide)
      (by show (List.replicate 1000 (65 : Byte)).length < 1001
          rw [List.length_replicate]; omega)⟩

/-- Command `LIST` when the directory opens: `dataConnection` returns 0 after
sending one `FNAME` packet per name that `listFiles` returned, with that name
as payload, in enumeration order, then `DONE`, all on the data connection,
and then `CLOSE` on the control connection.  When `stat` succeeds on every
entry, the names returned are those of the entries that are not directories;
without that proviso they need not be (`listFiles_stale_stat`). -/
theorem dataConnection_list (h : Host) (fuel : Nat) (env : Env) (c d : Fd)
    (entries : List DirEntry) (filename : List Byte)
    (hcd : c ≠ d) (hdir : env.dir = some entries) :
    ∃ t, dataConnection h fuel env c d (lit "LIST") filename = Outcome.ret (0, t) ∧
      t = ((listLoop entries [] 0 env.info0).1.flatMap fun n => sendPack h d (lit "FNAME") n) ++
        (sendPack h d (lit "DONE") (lit "") ++ sendPack h c (lit "CLOSE") (lit "")) ∧
      sentOn d t =
        wireStream ((listLoop entries [] 0 env.info0).1.map (fun n => (lit "FNAME", n)) ++
          [(lit "DONE", [])]) ∧
      ((∀ e ∈ entries, e.isDir ≠ none) →
        (listLoop entries [] 0 env.info0).1 = nonDirNames entries ∧
        ((listLoop entries [] 0 env.info0).1.map (fun n => (lit "FNAME", n))).length =
          (entries.filter fun e => e.isDir = some false).length) := by
  have hrun := dataConnection_LIST h fuel env c d (lit "LIST") filename entries hdir (by decide)
  rw [sendNames_eq_flatMap] at hrun
  refine ⟨_, hrun, rfl, ?_, ?_⟩
  · have e1 : cstr (lit "FNAME") = lit "FNAME" := by decide
    have hn : (listLoop entries [] 0 env.info0).1.map (fun p => (cstr (lit "FNAME"), cstr p)) =
        (listLoop entries [] 0 env.info0).1.map (fun n => (lit "FNAME", n)) := by
      apply List.map_congr_left
      intro n hn
      rw [listLoop_names entries [] 0 env.info0 (by simp) n hn, e1]
    rw [sentOn_append, sentOn_flatMap_sendPack h d (lit "FNAME") (by decide), hn,
      sentOn_done_close_data h c d hcd, wireStream_append]
  · intro hstat
    have hL := listLoop_stat_ok entries [] 0 env.info0 hstat
    rw [List.nil_append] at hL
    refine ⟨hL, ?_⟩
    rw [hL]
    simp [nonDirNames]

theorem dataConnection_list_example :
    (4 : Fd) ≠ 5 ∧
      (∀ e ∈ ([{ d_name := lit ".", isDir := some true },
          { d_name := lit "a.txt", isDir := some false }] : List DirEntry), e.isDir ≠ none) ∧
      (∃ t, dataConnection lp64 0 textFileEnv 4 5 (lit "LIST") (lit "") = Outcome.ret (0, t) ∧
        sentOn 5 t = wireStream [(lit "FNAME", lit "a.txt"), (lit "DONE", [])]) ∧
      (listLoop [{ d_name := lit ".", isDir := some true },
          { d_name := lit "a.txt", isDir := some false }] [] 0 textFileEnv.info0).1 =
        nonDirNames [{ d_name := lit ".", isDir := some true },
          { d_name := lit "a.txt", isDir := some false }] := by
  obtain ⟨t, h1, _, h3, h4⟩ := dataConnection_list lp64 0 textFileEnv 4 5
    [{ d_name := lit ".", isDir := some true }, { d_name := lit "a.txt", isDir := some false }]
    (lit "") (by decide) rfl
  exact ⟨by decide, by decide, ⟨t, h1, h3.trans (by decide)⟩, (h4 (by decide)).1⟩

/-- C5, `GET` of a missing file: when no name of the listing equals the
file name, `dataConnection` returns -1 and does exactly this: one `ERROR`
packet with payload "File not found" on the control connection, `DONE` on
the data connection, `CLOSE` on the control connection.  The data connection
carries `DONE` alone and no `fopen` takes place. -/
theorem dataConnection_get_missing (h : Host) (fuel : Nat) (env : Env) (c d : Fd)
    (entries : List DirEntry) (filename : List Byte)
    (hcd : c ≠ d) (hdir : env.dir = some entries)
    (hmiss : ∀ name ∈ (listLoop entries [] 0 env.info0).1, name ≠ cstr filename) :
    ∃ t, dataConnection h fuel env c d (lit "GET") filename = Outcome.ret (-1, t) ∧
      t = sendPack h c (lit "ERROR") (lit "File not found") ++
        (sendPack h d (lit "DONE") (lit "") ++ sendPack h c (lit "CLOSE") (lit "")) ∧
      sentOn c t = wireStream [(lit "ERROR", lit "File not found"), (lit "CLOSE", [])] ∧
      sentOn d t = wireStream [(lit "DONE", [])] ∧
      ∀ n, Event.fopen n ∉ t := by
  have hs : searchFile filename (listLoop entries [] 0 env.info0).1 = false := by
    rw [Bool.eq_false_iff]
    intro hst
    obtain ⟨n, hn, he⟩ := (searchFile_eq_true _ _).mp hst
    have hcn := listLoop_names entries [] 0 env.info0 (by simp) n hn
    exact hmiss n hn (by rw [he, hcn])
  have hrun := dataConnection_GET_missing h fuel env c d (lit "GET") filename entries hdir
    (by decide) (by decide) hs
  refine ⟨_, hrun, rfl, ?_, ?_, ?_⟩
  · have e1 : cstr (lit "ERROR") = lit "ERROR" := by decide
    have e2 : cstr (lit "File not found") = lit "File not found" := by decide
    rw [sentOn_append, sentOn_sendPack h c _ _ (by decide), sentOn_done_close_control h c d hcd,
      e1, e2]
    rfl
  · rw [sentOn_append, sentOn_sendPack_ne h d c _ _ hcd, sentOn_done_close_data h c d hcd]
    rfl
  · intro n hn
    rcases List.mem_append.mp hn with h1 | h1
    · exact fopen_not_mem_sendPack h c _ _ n h1
    · rcases List.mem_append.mp h1 with h2 | h2
      · exact fopen_not_mem_sendPack h d _ _ n h2
      · exact fopen_not_mem_sendPack h c _ _ n h2

theorem dataConnection_get_missing_witness :
    (4 : Fd) ≠ 5 ∧
      (∀ name ∈ (listLoop [{ d_name := lit ".", isDir := some true },
          { d_name := lit "a.txt", isDir := some false }] [] 0 textFileEnv.info0).1,
        name ≠ cstr (lit "missing.txt")) ∧
      ∃ t, dataConnection lp64 0 textFileEnv 4 5 (lit "GET") (lit "missing.txt") =
            Outcome.ret (-1, t) ∧
        t = sendPack lp64 4 (lit "ERROR") (lit "File not found") ++
          (sendPack lp64 5 (lit "DONE") (lit "") ++ sendPack lp64 4 (lit "CLOSE") (lit "")) ∧
        sentOn 4 t = wireStream [(lit "ERROR", lit "File not found"), (lit "CLOSE", [])] ∧
        sentOn 5 t = wireStream [(lit "DONE", [])] ∧
        ∀ n, Event.fopen n ∉ t :=
  ⟨by decide, by decide,
    dataConnection_get_missing lp64 0 textFileEnv 4 5
      [{ d_name := lit ".", isDir := some true }, { d_name := lit "a.txt", isDir := some false }]
      (lit "missing.txt") (by decide) rfl (by decide)⟩


theorem sentOn_error_control (h : Host) (c : Fd) (msg : List Byte) :
    sentOn c (sendPack h c (lit "ERROR") msg) = wireStream [(lit "ERROR", cstr msg)] := by
  have e1 : cstr (lit "ERROR") = lit "ERROR" := by decide
  rw [sentOn_sendPack h c _ _ (by decide), e1]
  simp [wireStream]

/-- Whenever the read loop returns, what it did is a run of `FILE` packets
on the data socket, each with at most 512 payload bytes. -/
theorem freadLoop_packets (h : Host) (d : Fd) : ∀ (fuel : Nat) (rest : List Byte) (t : Trace),
    freadLoop h d fuel rest = Outcome.ret t →
    ∃ payloads : List (List Byte),
      (t = payloads.flatMap fun p => sendPack h d (lit "FILE") p) ∧
      ∀ p ∈ payloads, (cstr p).length ≤ 512 := by
  intro fuel
  induction fuel with
  | zero => intro rest t ht; simp [freadLoop] at ht
  | succ fuel ih =>
    intro rest t ht
    have hb : (cstr (rest.take MAX_PACK_PAYLOAD_LEN ++ [0])).length ≤ 512 := by
      rw [cstr_append_zero]
      have h1 := strlen_le_length (rest.take MAX_PACK_PAYLOAD_LEN)
      have h2 : (rest.take MAX_PACK_PAYLOAD_LEN).length ≤ 512 := by
        simp only [MAX_PACK_PAYLOAD_LEN, List.length_take]; omega
      unfold strlen at h1
      omega
    simp only [freadLoop] at ht
    split at ht
    · cases hrec : freadLoop h d fuel (rest.drop MAX_PACK_PAYLOAD_LEN) with
      | exited => rw [hrec] at ht; simp at ht
      | outOfFuel => rw [hrec] at ht; simp at ht
      | ret t2 =>
        rw [hrec] at ht
        simp only [Outcome.ret.injEq] at ht
        obtain ⟨ps, hps, hbs⟩ := ih _ _ hrec
        refine ⟨(rest.take MAX_PACK_PAYLOAD_LEN ++ [0]) :: ps, ?_, ?_⟩
        · rw [← ht, hps, List.flatMap_cons]
        · intro p hp
          rcases List.mem_cons.mp hp with h1 | h1
          · rw [h1]; exact hb
          · exact hbs p h1
    · simp only [Outcome.ret.injEq] at ht
      refine ⟨[rest.take MAX_PACK_PAYLOAD_LEN ++ [0]], ?_, ?_⟩
      · rw [← ht]; simp
      · intro p hp
        rw [List.mem_singleton.mp hp]; exact hb

/-- What `dataConnection` did before its two closing calls, whenever it
returns: on the data connection a run of `FNAME` packets of the listing or
of `FILE` packets, on the control connection at most one `ERROR` packet. -/
theorem dataConnection_prefix (h : Host) (fuel : Nat) (env : Env) (c d : Fd)
    (cmd filename : List Byte) (hcd : c ≠ d) (check : Int) (t : Trace)
    (hret : dataConnection h fuel env c d cmd filename = Outcome.ret (check, t)) :
    ∃ (entries : List DirEntry) (t1 : Trace) (dataPkts ctlPkts : List (List Byte × List Byte)),
      env.dir = some entries ∧
      t = t1 ++ (sendPack h d (lit "DONE") (lit "") ++ sendPack h c (lit "CLOSE") (lit "")) ∧
      sentOn d t1 = wireStream dataPkts ∧
      sentOn c t1 = wireStream ctlPkts ∧
      (∀ p ∈ dataPkts, DataPacketOk (listLoop entries [] 0 env.info0).1 filename p) ∧
      (∀ p ∈ ctlPkts, ControlPacketOk p) ∧
      ctlPkts.length ≤ 1 := by
  have hdc : d ≠ c := Ne.symm hcd
  have eN : cstr (lit "FNAME") = lit "FNAME" := by decide
  have eF : cstr (lit "FILE") = lit "FILE" := by decide
  have eM1 : cstr (lit "File not found") = lit "File not found" := by decide
  have eM2 : cstr (lit "File wont open") = lit "File wont open" := by decide
  cases hdir : env.dir with
  | none => simp [dataConnection, listFiles, hdir] at hret
  | some entries =>
    cases hl : streq cmd (lit "LIST") with
    | true =>
      rw [dataConnection_LIST h fuel env c d cmd filename entries hdir hl] at hret
      simp only [Outcome.ret.injEq, Prod.mk.injEq] at hret
      refine ⟨entries, _, (listLoop entries [] 0 env.info0).1.map fun n => (lit "FNAME", n), [],
        rfl, hret.2.symm, ?_, ?_, ?_, by simp, by simp⟩
      · rw [sendNames_eq_flatMap, sentOn_flatMap_sendPack h d (lit "FNAME") (by decide)]
        congr 1
        apply List.map_congr_left
        intro n hn
        rw [listLoop_names entries [] 0 env.info0 (by simp) n hn, eN]
      · rw [sendNames_eq_flatMap]
        exact sentOn_flatMap_sendPack_ne h c d (lit "FNAME") hdc _
      · intro p hp
        obtain ⟨n, hn, rfl⟩ := List.mem_map.mp hp
        exact Or.inl ⟨rfl, hn⟩
    | false =>
      cases hg : streq cmd (lit "GET") with
      | false =>
        rw [dataConnection_other h fuel env c d cmd filename entries hdir hl hg] at hret
        simp only [Outcome.ret.injEq, Prod.mk.injEq] at hret
        exact ⟨entries, [], [], [], rfl, by rw [List.nil_append]; exact hret.2.symm, rfl, rfl,
          by simp, by simp, by simp⟩
      | true =>
        cases hs : searchFile filename (listLoop entries [] 0 env.info0).1 with
        | false =>
          rw [dataConnection_GET_missing h fuel env c d cmd filename entries hdir hl hg hs]
            at hret
          simp only [Outcome.ret.injEq, Prod.mk.injEq] at hret
          refine ⟨entries, _, [], [(lit "ERROR", lit "File not found")], rfl, hret.2.symm,
            sentOn_sendPack_ne h d c _ _ hcd, ?_, by simp, ?_, by simp⟩
          · rw [sentOn_error_control h c _, eM1]
          · intro p hp
            rw [List.mem_singleton.mp hp]
            exact ⟨rfl, Or.inl rfl⟩
        | true =>
          cases ho : env.fopen (cstr filename) with
          | none =>
            rw [dataConnection_GET_noopen h fuel env c d cmd filename entries hdir hl hg hs ho]
              at hret
            simp only [Outcome.ret.injEq, Prod.mk.injEq] at hret
            refine ⟨entries, _, [], [(lit "ERROR", lit "File wont open")], rfl, hret.2.symm,
              ?_, ?_, by simp, ?_, by simp⟩
            · rw [sentOn_append, sentOn_sendPack_ne h d c _ _ hcd]
              rfl
            · rw [sentOn_append, sentOn_error_control h c _, eM2]
              rfl
            · intro p hp
              rw [List.mem_singleton.mp hp]
              exact ⟨rfl, Or.inr rfl⟩
          | some f =>
            rw [dataConnection_GET_open h fuel env c d cmd filename entries f hdir hl hg hs ho]
              at hret
            cases hfr : freadLoop h d fuel f.content with
            | exited => rw [hfr] at hret; simp at hret
            | outOfFuel => rw [hfr] at hret; simp at hret
            | ret t2 =>
              rw [hfr] at hret
              simp only [Outcome.ret.injEq, Prod.mk.injEq] at hret
              obtain ⟨ps, hps, hbs⟩ := freadLoop_packets h d fuel f.content t2 hfr
              refine ⟨entries, _, (lit "FILE", cstr filename) :: ps.map fun p => (lit "FILE", cstr p),
                [], rfl, hret.2.symm, ?_, ?_, ?_, by simp, by simp⟩
              · rw [hps, sentOn_append, sentOn_append,
                  sentOn_flatMap_sendPack h d (lit "FILE") (by decide),
                  sentOn_sendPack h d (lit "FILE") _ (by decide), eF]
                rfl
              · rw [hps, sentOn_append, sentOn_append,
                  sentOn_flatMap_sendPack_ne h c d (lit "FILE") hdc,
                  sentOn_sendPack_ne h c d _ _ hdc]
                rfl
              · intro p hp
                rcases List.mem_cons.mp hp with h1 | h1
                · rw [h1]
                  exact Or.inr ⟨rfl, Or.inl rfl⟩
                · obtain ⟨n, hn, rfl⟩ := List.mem_map.mp h1
                  exact Or.inr ⟨rfl, Or.inr (hbs n hn)⟩

/-- The packets that a stream holds when it ends with the packet of tag
`last` and empty payload, after packets of other tag fields: it has exactly
one packet with the tag field of `last`, and that is its last packet. -/
theorem packetsOf_last (pkts : List (List Byte × List Byte)) (last : List Byte)
    (hl : last.length ≤ 8)
    (hb : ∀ p ∈ pkts, p.1.length ≤ 8 ∧ p.2.length ≤ 65525)
    (hne : ∀ p ∈ pkts, padTag p.1 ≠ padTag last) :
    packetsOf (wireStream (pkts ++ [(last, [])])) =
        (pkts ++ [(last, [])]).map (fun (p : List Byte × List Byte) => (padTag p.1, p.2)) ∧
      (packetsOf (wireStream (pkts ++ [(last, [])]))).countP
        (fun p => decide (p.1 = padTag last)) = 1 ∧
      (packetsOf (wireStream (pkts ++ [(last, [])]))).getLast? = some (padTag last, []) := by
  have hall : ∀ p ∈ pkts ++ [(last, [])], p.1.length ≤ 8 ∧ p.2.length ≤ 65525 := by
    intro p hp
    rcases List.mem_append.mp hp with h1 | h1
    · exact hb p h1
    · rw [List.mem_singleton.mp h1]
      exact ⟨hl, by simp⟩
  have hparse := packetsOf_wireStream _ hall
  refine ⟨hparse, ?_, ?_⟩
  · rw [hparse, List.map_append, List.countP_append]
    have hz : List.countP (fun p => decide (p.1 = padTag last))
        (pkts.map fun p => (padTag p.1, p.2)) = 0 := by
      rw [List.countP_eq_zero]
      intro q hq
      obtain ⟨p, hp, rfl⟩ := List.mem_map.mp hq
      simpa using hne p hp
    rw [hz]
    simp
  · rw [hparse, List.map_append]
    simp

/-- C7, termination sequence of a transfer.  Whichever branch ran, when
`dataConnection` returns, its last two actions are the `DONE` packet on the
data connection and then the `CLOSE` packet on the control connection.  Before
`DONE` the data connection carries `FNAME` packets of the listing or `FILE`
packets and nothing else; before `CLOSE` the control connection carries at
most one `ERROR` packet and nothing else.  Read as the receiver frames it
(names and file name within what the length field can express), the data
stream holds exactly one packet of tag `DONE`, its last, and the control
stream exactly one packet of tag `CLOSE`, its last.  And `dataConnection`
does return when the directory can be opened and the read loop is allowed
more iterations than the file has bytes. -/
theorem dataConnection_done_close (h : Host) (fuel : Nat) (env : Env) (c d : Fd)
    (cmd filename : List Byte) (hcd : c ≠ d) :
    (∀ check t, dataConnection h fuel env c d cmd filename = Outcome.ret (check, t) →
      ∃ (entries : List DirEntry) (t1 : Trace)
        (dataPkts ctlPkts : List (List Byte × List Byte)),
        env.dir = some entries ∧
        t = t1 ++ (sendPack h d (lit "DONE") (lit "") ++ sendPack h c (lit "CLOSE") (lit "")) ∧
        sentOn d t = wireStream (dataPkts ++ [(lit "DONE", [])]) ∧
        sentOn c t = wireStream (ctlPkts ++ [(lit "CLOSE", [])]) ∧
        (∀ p ∈ dataPkts, DataPacketOk (listLoop entries [] 0 env.info0).1 filename p) ∧
        (∀ p ∈ ctlPkts, ControlPacketOk p) ∧
        ctlPkts.length ≤ 1 ∧
        ((∀ n ∈ (listLoop entries [] 0 env.info0).1, n.length ≤ 65525) →
          (cstr filename).length ≤ 65525 →
          (packetsOf (sentOn d t)).countP (fun p => decide (p.1 = padTag (lit "DONE"))) = 1 ∧
          (packetsOf (sentOn d t)).getLast? = some (padTag (lit "DONE"), []) ∧
          (packetsOf (sentOn c t)).countP (fun p => decide (p.1 = padTag (lit "CLOSE"))) = 1 ∧
          (packetsOf (sentOn c t)).getLast? = some (padTag (lit "CLOSE"), []))) ∧
    (env.dir ≠ none →
      (∀ f, env.fopen (cstr filename) = some f → f.content.length < fuel) →
      ∃ check t, dataConnection h fuel env c d cmd filename = Outcome.ret (check, t)) := by
  constructor
  · intro check t hret
    obtain ⟨entries, t1, dataPkts, ctlPkts, hdir, ht, hd1, hc1, hdp, hcp, hlen⟩ :=
      dataConnection_prefix h fuel env c d cmd filename hcd check t hret
    have hsd : sentOn d t = wireStream (dataPkts ++ [(lit "DONE", [])]) := by
      rw [ht, sentOn_append, hd1, sentOn_done_close_data h c d hcd, wireStream_append]
    have hsc : sentOn c t = wireStream (ctlPkts ++ [(lit "CLOSE", [])]) := by
      rw [ht, sentOn_append, hc1, sentOn_done_close_control h c d hcd, wireStream_append]
    refine ⟨entries, t1, dataPkts, ctlPkts, hdir, ht, hsd, hsc, hdp, hcp, hlen, ?_⟩
    intro hnames hfn
    have hdb : ∀ p ∈ dataPkts, p.1.length ≤ 8 ∧ p.2.length ≤ 65525 := by
      intro p hp
      rcases hdp p hp with ⟨h1, h2⟩ | ⟨h1, h2⟩
      · rw [h1]
        exact ⟨by decide, hnames _ h2⟩
      · rw [h1]
        refine ⟨by decide, ?_⟩
        rcases h2 with h3 | h3
        · rw [h3]; exact hfn
        · omega
    have hdn : ∀ p ∈ dataPkts, padTag p.1 ≠ padTag (lit "DONE") := by
      intro p hp
      rcases hdp p hp with ⟨h1, _⟩ | ⟨h1, _⟩ <;> rw [h1] <;> decide
    have hcb : ∀ p ∈ ctlPkts, p.1.length ≤ 8 ∧ p.2.length ≤ 65525 := by
      intro p hp
      obtain ⟨h1, h2⟩ := hcp p hp
      rw [h1]
      refine ⟨by decide, ?_⟩
      rcases h2 with h3 | h3 <;> rw [h3] <;> decide
    have hcn : ∀ p ∈ ctlPkts, padTag p.1 ≠ padTag (lit "CLOSE") := by
      intro p hp
      obtain ⟨h1, _⟩ := hcp p hp
      rw [h1]
      decide
    have kd := packetsOf_last dataPkts (lit "DONE") (by decide) hdb hdn
    have kc := packetsOf_last ctlPkts (lit "CLOSE") (by decide) hcb hcn
    rw [hsd, hsc]
    exact ⟨kd.2.1, kd.2.2, kc.2.1, kc.2.2⟩
  · intro hdir hfuel
    cases hd : env.dir with
    | none => exact absurd hd hdir
    | some entries =>
      cases hl : streq cmd (lit "LIST") with
      | true => exact ⟨_, _, dataConnection_LIST h fuel env c d cmd filename entries hd hl⟩
      | false =>
        cases hg : streq cmd (lit "GET") with
        | false => exact ⟨_, _, dataConnection_other h fuel env c d cmd filename entries hd hl hg⟩
        | true =>
          cases hs : searchFile filename (listLoop entries [] 0 env.info0).1 with
          | false =>
            exact ⟨_, _,
              dataConnection_GET_missing h fuel env c d cmd filename entries hd hl hg hs⟩
          | true =>
            cases ho : env.fopen (cstr filename) with
            | none =>
              exact ⟨_, _,
                dataConnection_GET_noopen h fuel env c d cmd filename entries hd hl hg hs ho⟩
            | some f =>
              have hrun :=
                dataConnection_GET_open h fuel env c d cmd filename entries f hd hl hg hs ho
              rw [freadLoop_spec h d fuel f.content (hfuel f ho)] at hrun
              exact ⟨_, _, hrun⟩

theorem dataConnection_done_close_witness :
    (4 : Fd) ≠ 5 ∧
      dataConnection lp64 4 binaryFileEnv 4 5 (lit "GET") (lit "f") =
        Outcome.ret (0, [Event.fopen (lit "f")] ++ sendPack lp64 5 (lit "FILE") (lit "f") ++
          sendPack lp64 5 (lit "FILE") [65] ++ sendPack lp64 5 (lit "FILE") [] ++
          sendPack lp64 5 (lit "DONE") (lit "") ++ sendPack lp64 4 (lit "CLOSE") (lit "")) ∧
      (packetsOf (sentOn 5 ([Event.fopen (lit "f")] ++ sendPack lp64 5 (lit "FILE") (lit "f") ++
          sendPack lp64 5 (lit "FILE") [65] ++ sendPack lp64 5 (lit "FILE") [] ++
          sendPack lp64 5 (lit "DONE") (lit "") ++
          sendPack lp64 4 (lit "CLOSE") (lit "")))).countP
        (fun p => decide (p.1 = padTag (lit "DONE"))) = 1 ∧
      (packetsOf (sentOn 4 ([Event.fopen (lit "f")] ++ sendPack lp64 5 (lit "FILE") (lit "f") ++
          sendPack lp64 5 (lit "FILE") [65] ++ sendPack lp64 5 (lit "FILE") [] ++
          sendPack lp64 5 (lit "DONE") (lit "") ++
          sendPack lp64 4 (lit "CLOSE") (lit "")))).getLast? =
        some (padTag (lit "CLOSE"), []) ∧
      ∃ check t, dataConnection lp64 4 binaryFileEnv 4 5 (lit "GET") (lit "f") =
        Outcome.ret (check, t) := by
  have key := dataConnection_done_close lp64 4 binaryFileEnv 4 5 (lit "GET") (lit "f") (by decide)
  have hrun : dataConnection lp64 4 binaryFileEnv 4 5 (lit "GET") (lit "f") =
      Outcome.ret (0, [Event.fopen (lit "f")] ++ sendPack lp64 5 (lit "FILE") (lit "f") ++
        sendPack lp64 5 (lit "FILE") [65] ++ sendPack lp64 5 (lit "FILE") [] ++
        sendPack lp64 5 (lit "DONE") (lit "") ++ sendPack lp64 4 (lit "CLOSE") (lit "")) := by
    decide
  obtain ⟨entries, _, _, _, hdir, _, _, _, _, _, _, hparse⟩ := key.1 0 _ hrun
  have he : entries = [{ d_name := lit "f", isDir := some false }] := by
    have h2 : binaryFileEnv.dir = some [{ d_name := lit "f", isDir := some false }] := rfl
    rw [h2] at hdir
    exact (Option.some.inj hdir).symm
  subst he
  have hp := hparse
    (by
      intro n hn
      have hl : (listLoop [{ d_name := lit "f", isDir := some false }] [] 0
          binaryFileEnv.info0).1 = [lit "f"] := by decide
      rw [hl] at hn
      rw [List.mem_singleton.mp hn]
      decide)
    (by decide)
  refine ⟨by decide, hrun, hp.1, hp.2.2.2, ?_⟩
  exact key.2 (by simp [binaryFileEnv])
    (fun f hf => by
      have : f = { content := [65, 0, 66], failing := false } := by
        simpa [binaryFileEnv] using hf.symm
      rw [this]; decide)


/-! ## Lemmas on the decision step of the control session -/

theorem cstr_strcpy (dst src : List Byte) : cstr (strcpy dst src) = cstr src := by
  unfold strcpy
  rw [List.append_assoc, List.singleton_append, cstr_append_zero, cstr_cstr]

theorem sendPack_congr_option (h : Host) (fd : Fd) (o1 o2 data : List Byte)
    (ho : cstr o1 = cstr o2) : sendPack h fd o1 data = sendPack h fd o2 data := by
  unfold sendPack strcpy
  simp only [ho]

theorem recvPack_ret_cstr (h : Host) (fuel : Nat) (inp inp2 : Input) (o dt : List Byte)
    (hr : recvPack h fuel inp = Outcome.ret (o, dt, inp2)) : cstr o = o ∧ cstr dt = dt := by
  unfold recvPack at hr
  cases hA : recvFile fuel inp (h.ptrSize : Int) with
  | exited => rw [hA] at hr; simp at hr
  | outOfFuel => rw [hA] at hr; simp at hr
  | ret r1 =>
    obtain ⟨lenBuf, i1⟩ := r1
    rw [hA] at hr
    simp only at hr
    cases hB : recvFile fuel i1 (ARG_LEN : Int) with
    | exited => rw [hB] at hr; simp at hr
    | outOfFuel => rw [hB] at hr; simp at hr
    | ret r2 =>
      obtain ⟨optionBuf, i2⟩ := r2
      rw [hB] at hr
      simp only at hr
      cases hC : recvFile fuel i2 (dataLenOf (ntohs h (ushortAt h lenBuf)) : Int) with
      | exited => rw [hC] at hr; simp at hr
      | outOfFuel => rw [hC] at hr; simp at hr
      | ret r3 =>
        obtain ⟨dataBuf, i3⟩ := r3
        rw [hC] at hr
        simp only [Outcome.ret.injEq, Prod.mk.injEq] at hr
        rw [← hr.1, ← hr.2.1]
        exact ⟨cstr_cstr _, cstr_cstr _⟩

/-- The acknowledgment as sent: the tag "valid command" has 13 characters,
the 8-byte tag field carries the first 8 of them. -/
theorem sendPack_ack (h : Host) (fd : Fd) :
    sendPack h fd (lit "valid command") (lit "") =
      (wirePacket (lit "valid co") []).map (Event.send fd) := by
  unfold sendPack sendFile
  simp only []
  rw [take_strlen, ushortBytes_ntohs, toUShort_natCast]
  have e1 : (strcpy (List.replicate ARG_LEN 0) (lit "valid command")).take ARG_LEN =
      lit "valid co" := by decide
  have e2 : cstr (lit "") = [] := by decide
  have e3 : strlen (lit "") = 0 := by decide
  rw [e1, e2, e3]
  have e4 : List.take 2 [(Fin.ofNat ((2 + ARG_LEN + 0) % 65536 / 256 % 256) : Byte),
      Fin.ofNat ((2 + ARG_LEN + 0) % 65536 % 256)] ++ lit "valid co" ++ [] =
      wirePacket (lit "valid co") [] := by decide
  rw [← e4]
  simp

/-- What `controlConnection` does once its two `recvPack` calls have
returned. -/
theorem controlConnection_eq (h : Host) (fuel : Nat) (fd : Fd) (port : Int)
    (inp inp1 inp2 : Input) (o1 d1 o2 d2 : List Byte)
    (h1 : recvPack h fuel inp = Outcome.ret (o1, d1, inp1))
    (h2 : recvPack h fuel inp1 = Outcome.ret (o2, d2, inp2)) :
    controlConnection h fuel fd port inp =
      if o2 ≠ lit "LIST" ∧ o2 ≠ lit "GET" then
        Outcome.ret
          { status := -1, commandArg := o2,
            dataConnPort := if o1 = lit "DPORT" then atoi d1 else port,
            filename := d2,
            trace := sendPack h fd (lit "ERROR") (lit "command usage: -l || -g <FILENAME>"),
            inp := inp2 }
      else
        Outcome.ret
          { status := 0, commandArg := o2,
            dataConnPort := if o1 = lit "DPORT" then atoi d1 else port,
            filename := d2,
            trace := sendPack h fd (lit "valid command") (lit ""),
            inp := inp2 } := by
  obtain ⟨co1, _⟩ := recvPack_ret_cstr h fuel inp inp1 o1 d1 h1
  obtain ⟨co2, cd2⟩ := recvPack_ret_cstr h fuel inp1 inp2 o2 d2 h2
  have eD : cstr (lit "DPORT") = lit "DPORT" := by decide
  have eL : cstr (lit "LIST") = lit "LIST" := by decide
  have eG : cstr (lit "GET") = lit "GET" := by decide
  have s1 : streq o1 (lit "DPORT") = decide (o1 = lit "DPORT") := by
    simp only [streq, co1, eD]
  have s2 : streq o2 (lit "LIST") = decide (o2 = lit "LIST") := by
    simp only [streq, co2, eL]
  have s3 : streq o2 (lit "GET") = decide (o2 = lit "GET") := by
    simp only [streq, co2, eG]
  have p1 : sendPack h fd (strcpy (List.replicate (ARG_LEN + 1) 0) (lit "ERROR"))
      (strcpy (List.replicate (MAX_PACK_PAYLOAD_LEN + 1) 0)
        (lit "command usage: -l || -g <FILENAME>")) =
      sendPack h fd (lit "ERROR") (lit "command usage: -l || -g <FILENAME>") := by
    rw [sendPack_congr_option h fd _ (lit "ERROR") _ (cstr_strcpy _ _),
      sendPack_congr h fd _ _ (lit "command usage: -l || -g <FILENAME>") (cstr_strcpy _ _)]
  have p2 : sendPack h fd (strcpy (List.replicate (ARG_LEN + 1) 0) (lit "valid command"))
      (lit "") = sendPack h fd (lit "valid command") (lit "") :=
    sendPack_congr_option h fd _ (lit "valid command") _ (cstr_strcpy _ _)
  unfold controlConnection
  simp only [h1, h2, s1, s2, s3, cstr_strcpy, co2, cd2, p1, p2]
  by_cases hl : o2 = lit "LIST"
  · simp [hl]
  · by_cases hg : o2 = lit "GET"
    · simp [hg]
    · simp [hl, hg]

/-- The decision step of `controlConnection` on an invalid command: provided
both `recvPack` calls return and the second decodes a tag that is neither
`LIST` nor `GET`, `controlConnection` sends one packet on the control
connection, tagged `ERROR` with the usage message as payload, and returns -1;
and the session turn then does nothing more.  On a host with 8-byte pointers
a session in the wire format of the specification does not meet the
proviso. -/
theorem controlConnection_rejects (h : Host) (fuel : Nat) (env : Env) (c_controlfd : Fd)
    (dataConnPort : Int) (inp inp1 inp2 : Input) (o1 d1 o2 d2 : List Byte)
    (h1 : recvPack h fuel inp = Outcome.ret (o1, d1, inp1))
    (h2 : recvPack h fuel inp1 = Outcome.ret (o2, d2, inp2))
    (hl : o2 ≠ lit "LIST") (hg : o2 ≠ lit "GET") :
    controlConnection h fuel c_controlfd dataConnPort inp =
        Outcome.ret
          { status := -1, commandArg := o2,
            dataConnPort := if o1 = lit "DPORT" then atoi d1 else dataConnPort,
            filename := d2,
            trace := (wirePacket (lit "ERROR") (lit "command usage: -l || -g <FILENAME>")).map
              (Event.send c_controlfd),
            inp := inp2 } ∧
      ftpSession h fuel env c_controlfd dataConnPort inp =
        Outcome.ret
          ((wirePacket (lit "ERROR") (lit "command usage: -l || -g <FILENAME>")).map
            (Event.send c_controlfd), inp2) := by
  have hc := controlConnection_eq h fuel c_controlfd dataConnPort inp inp1 inp2 o1 d1 o2 d2 h1 h2
  rw [if_pos ⟨hl, hg⟩, sendPack_eq_wire h c_controlfd _ _ (by decide)] at hc
  have e1 : cstr (lit "ERROR") = lit "ERROR" := by decide
  have e2 : cstr (lit "command usage: -l || -g <FILENAME>") =
      lit "command usage: -l || -g <FILENAME>" := by decide
  rw [e1, e2] at hc
  refine ⟨hc, ?_⟩
  unfold ftpSession
  rw [hc]
  simp

/-- The decision step of `controlConnection` on a valid command: provided
both `recvPack` calls return and the second decodes the tag `LIST` or `GET`,
the model sends one packet on the control connection, with empty payload and
length field 10, returns 0, and hands back the decoded tag as command and
the decoded payload as file name.  The tag field of the packet holds
`valid co`, the first 8 characters of the tag `valid command` of the source,
whose copy overruns the tag buffers (`ack_tag_too_long`). -/
theorem controlConnection_accepts (h : Host) (fuel : Nat) (c_controlfd : Fd)
    (dataConnPort : Int) (inp inp1 inp2 : Input) (o1 d1 o2 d2 : List Byte)
    (h1 : recvPack h fuel inp = Outcome.ret (o1, d1, inp1))
    (h2 : recvPack h fuel inp1 = Outcome.ret (o2, d2, inp2))
    (hcmd : o2 = lit "LIST" ∨ o2 = lit "GET") :
    controlConnection h fuel c_controlfd dataConnPort inp =
        Outcome.ret
          { status := 0, commandArg := o2,
            dataConnPort := if o1 = lit "DPORT" then atoi d1 else dataConnPort,
            filename := d2,
            trace := (wirePacket (lit "valid co") []).map (Event.send c_controlfd),
            inp := inp2 } ∧
      wirePacket (lit "valid co") [] = [0, 10] ++ lit "valid co" := by
  have hc := controlConnection_eq h fuel c_controlfd dataConnPort inp inp1 inp2 o1 d1 o2 d2 h1 h2
  have hn : ¬ (o2 ≠ lit "LIST" ∧ o2 ≠ lit "GET") := by
    rintro ⟨hl, hg⟩
    rcases hcmd with h3 | h3
    · exact hl h3
    · exact hg h3
  rw [if_neg hn, sendPack_ack] at hc
  exact ⟨hc, by decide⟩

/-! ## Lemmas on `atoi` and on the data port -/

theorem atoiDigits_digits : ∀ (s : List Byte) (acc : Nat),
    (∀ b ∈ s, isdigit b = true) →
    atoiDigits s (acc : Int) = ((acc * 10 ^ s.length + decimalValue s : Nat) : Int) := by
  intro s
  induction s with
  | nil => intro acc _; simp [atoiDigits, decimalValue]
  | cons b s ih =>
    intro acc hs
    have hb : isdigit b = true := hs b (List.mem_cons_self _ _)
    have hb2 : 48 ≤ b.val := by
      simp only [isdigit, Bool.and_eq_true, decide_eq_true_eq] at hb
      exact hb.1
    have hacc : ((acc : Int) * 10 + ((b.val : Int) - 48)) = ((acc * 10 + (b.val - 48) : Nat) : Int) := by
      push_cast [Nat.cast_sub hb2]
      ring
    simp only [atoiDigits, hb, if_true]
    rw [hacc, ih _ (fun x hx => hs x (List.mem_cons_of_mem _ hx))]
    congr 1
    simp only [decimalValue, List.map_cons, List.reverse_cons, Nat.ofDigits_append,
      Nat.ofDigits_singleton, List.length_reverse, List.length_map, List.length_cons]
    ring

theorem toInt_clampLong_of_lt (v : Int) (h0 : 0 ≤ v) (h1 : v < 2147483648) :
    toInt (clampLong v) = v := by
  unfold toInt clampLong
  rw [if_neg (by omega), if_neg (by omega)]
  omega

/-- On a string of decimal digits whose number an `int` can hold, `atoi`
gives the integer the digits denote. -/
theorem atoi_digits (s : List Byte) (hs : ∀ b ∈ s, isdigit b = true)
    (hlt : decimalValue s < 2 ^ 31) :
    atoi s = (decimalValue s : Int) := by
  have hnz : ∀ b ∈ s, b ≠ 0 := by
    intro b hb h0
    have := hs b hb
    rw [h0] at this
    exact absurd this (by decide)
  have hv : atoiValue s = (decimalValue s : Int) := by
    unfold atoiValue
    rw [cstr_of_nonzero s hnz]
    cases s with
    | nil => simp [decimalValue]
    | cons b bs =>
      have hb : isdigit b = true := hs b (List.mem_cons_self _ _)
      have hb3 : 48 ≤ b.val ∧ b.val ≤ 57 := by
        simpa only [isdigit, Bool.and_eq_true, decide_eq_true_eq] using hb
      have hsp : isspace b = false := by
        simp only [isspace, Bool.or_eq_false_iff, Bool.and_eq_false_iff, decide_eq_false_iff_not]
        omega
      have h45 : ¬ b.val = 45 := by omega
      have h43 : ¬ b.val = 43 := by omega
      simp only [List.dropWhile_cons, hsp, Bool.false_eq_true, if_false, h45, h43]
      have := atoiDigits_digits (b :: bs) 0 hs
      simpa using this
  unfold atoi
  rw [hv]
  have h31 : (2 : Nat) ^ 31 = 2147483648 := by norm_num
  exact toInt_clampLong_of_lt _ (by omega) (by omega)

/-- The function `atoi` beyond the range of `int`: the digits of 2^31 give
-2^31, and a number is read up to the first character that is not a
digit. -/
theorem atoi_out_of_range :
    atoi (lit "2147483648") = -2147483648 ∧ atoi (lit "30021") = 30021 ∧
      atoi (lit " -42x") = -42 := by
  decide

/-- The data port after the first `recvPack` has returned: when the second
`recvPack` returns, `controlConnection` returns with the data port set to
`atoi` of the first payload if the first decoded tag is `DPORT` and left as
it was if the tag is anything else; when it does not return, neither does
`controlConnection`.  For a payload of decimal digits that denote less than
2^31, `atoi` is the integer the digits denote. -/
theorem controlConnection_dport (h : Host) (fuel : Nat) (c_controlfd : Fd)
    (dataConnPort : Int) (inp inp1 : Input) (o1 d1 : List Byte)
    (h1 : recvPack h fuel inp = Outcome.ret (o1, d1, inp1)) :
    (∀ o2 d2 inp2, recvPack h fuel inp1 = Outcome.ret (o2, d2, inp2) →
      ∃ r, controlConnection h fuel c_controlfd dataConnPort inp = Outcome.ret r ∧
        (o1 = lit "DPORT" → r.dataConnPort = atoi d1) ∧
        (o1 ≠ lit "DPORT" → r.dataConnPort = dataConnPort) ∧
        r.commandArg = o2 ∧ r.filename = d2 ∧ r.inp = inp2) ∧
      (recvPack h fuel inp1 = Outcome.exited →
        controlConnection h fuel c_controlfd dataConnPort inp = Outcome.exited) ∧
      (recvPack h fuel inp1 = Outcome.outOfFuel →
        controlConnection h fuel c_controlfd dataConnPort inp = Outcome.outOfFuel) ∧
      ((∀ b ∈ d1, isdigit b = true) → decimalValue d1 < 2 ^ 31 →
        atoi d1 = (decimalValue d1 : Int)) := by
  refine ⟨?_, ?_, ?_, fun hd hlt => atoi_digits d1 hd hlt⟩
  · intro o2 d2 inp2 h2
    have hc := controlConnection_eq h fuel c_controlfd dataConnPort inp inp1 inp2 o1 d1 o2 d2 h1 h2
    by_cases hcmd : o2 ≠ lit "LIST" ∧ o2 ≠ lit "GET"
    · rw [if_pos hcmd] at hc
      refine ⟨_, hc, ?_, ?_, rfl, rfl, rfl⟩
      · intro hp; simp [hp]
      · intro hp; simp [hp]
    · rw [if_neg hcmd] at hc
      refine ⟨_, hc, ?_, ?_, rfl, rfl, rfl⟩
      · intro hp; simp [hp]
      · intro hp; simp [hp]
  · intro h2
    unfold controlConnection
    simp only [h1, h2]
  · intro h2
    unfold controlConnection
    simp only [h1, h2]

/-! ## Transfer engine: claims C12, C15 -/

/-- C12, `GET` of an unreadable file: when the file name is in the listing
and `fopen` fails, `dataConnection` returns -1 and does exactly this: the
`fopen` call, one `ERROR` packet with payload "File wont open" on the control
connection, `DONE` on the data connection, `CLOSE` on the control
connection.  The data connection carries `DONE` alone. -/
theorem dataConnection_get_unreadable (h : Host) (fuel : Nat) (env : Env) (c d : Fd)
    (entries : List DirEntry) (filename : List Byte)
    (hcd : c ≠ d) (hdir : env.dir = some entries)
    (hfound : cstr filename ∈ (listLoop entries [] 0 env.info0).1)
    (hopen : env.fopen (cstr filename) = none) :
    ∃ t, dataConnection h fuel env c d (lit "GET") filename = Outcome.ret (-1, t) ∧
      t = [Event.fopen (cstr filename)] ++ sendPack h c (lit "ERROR") (lit "File wont open") ++
        (sendPack h d (lit "DONE") (lit "") ++ sendPack h c (lit "CLOSE") (lit "")) ∧
      sentOn c t = wireStream [(lit "ERROR", lit "File wont open"), (lit "CLOSE", [])] ∧
      sentOn d t = wireStream [(lit "DONE", [])] := by
  have hs : searchFile filename (listLoop entries [] 0 env.info0).1 = true := by
    rw [searchFile_eq_true]
    exact ⟨cstr filename, hfound, (cstr_cstr filename).symm⟩
  have hrun := dataConnection_GET_noopen h fuel env c d (lit "GET") filename entries hdir
    (by decide) (by decide) hs hopen
  refine ⟨_, hrun, rfl, ?_, ?_⟩
  · have e2 : cstr (lit "File wont open") = lit "File wont open" := by decide
    rw [sentOn_append, sentOn_append, sentOn_fopen, sentOn_nil, sentOn_error_control h c _,
      sentOn_done_close_control h c d hcd, e2, List.nil_append]
    rfl
  · rw [sentOn_append, sentOn_append, sentOn_fopen, sentOn_nil, sentOn_sendPack_ne h d c _ _ hcd,
      sentOn_done_close_data h c d hcd]
    rfl

theorem dataConnection_get_unreadable_witness :
    (4 : Fd) ≠ 5 ∧
      cstr (lit "a.txt") ∈
        (listLoop [{ d_name := lit "a.txt", isDir := some false }] [] 0 lockedFileEnv.info0).1 ∧
      lockedFileEnv.fopen (cstr (lit "a.txt")) = none ∧
      ∃ t, dataConnection lp64 0 lockedFileEnv 4 5 (lit "GET") (lit "a.txt") =
            Outcome.ret (-1, t) ∧
        t = [Event.fopen (cstr (lit "a.txt"))] ++
          sendPack lp64 4 (lit "ERROR") (lit "File wont open") ++
          (sendPack lp64 5 (lit "DONE") (lit "") ++ sendPack lp64 4 (lit "CLOSE") (lit "")) ∧
        sentOn 4 t = wireStream [(lit "ERROR", lit "File wont open"), (lit "CLOSE", [])] ∧
        sentOn 5 t = wireStream [(lit "DONE", [])] :=
  ⟨by decide, by decide, rfl,
    dataConnection_get_unreadable lp64 0 lockedFileEnv 4 5
      [{ d_name := lit "a.txt", isDir := some false }] (lit "a.txt")
      (by decide) rfl (by decide) rfl⟩

/-- C15 as the specification states it fails: for a file that delivers the
two bytes `AB` and then fails to read, `dataConnection` does not leave
through `exit(1)`; it returns -1 after the `FILE` packet of `AB`, the empty
`FILE` packet, `DONE` and `CLOSE`. -/
theorem dataConnection_read_error_returns :
    dataConnection lp64 3 failingFileEnv 4 5 (lit "GET") (lit "a.txt") =
        Outcome.ret (-1, [Event.fopen (lit "a.txt")] ++
          sendPack lp64 5 (lit "FILE") (lit "a.txt") ++ sendPack lp64 5 (lit "FILE") (lit "AB") ++
          sendPack lp64 5 (lit "FILE") [] ++ sendPack lp64 5 (lit "DONE") (lit "") ++
          sendPack lp64 4 (lit "CLOSE") (lit "")) ∧
      dataConnection lp64 3 failingFileEnv 4 5 (lit "GET") (lit "a.txt") ≠ Outcome.exited := by
  decide

/-- C15, amended, mid-stream read error: for a `GET` of a file that is found
and opens and whose reading ends with an error, `dataConnection`, given
enough iterations, sends the `FILE` packets of the bytes read before the
error and the empty `FILE` packet, then `DONE` on the data connection and
`CLOSE` on the control connection, and returns -1 to its caller; the process
does not leave through `exit(1)`. -/
theorem dataConnection_get_read_error (h : Host) (fuel : Nat) (env : Env) (c d : Fd)
    (entries : List DirEntry) (filename : List Byte) (f : File)
    (hdir : env.dir = some entries)
    (hfound : cstr filename ∈ (listLoop entries [] 0 env.info0).1)
    (hopen : env.fopen (cstr filename) = some f)
    (hfail : f.failing = true) (hfuel : f.content.length < fuel) :
    dataConnection h fuel env c d (lit "GET") filename =
        Outcome.ret (-1, [Event.fopen (cstr filename)] ++
          sendPack h d (lit "FILE") filename ++
          (((fileChunks f.content).flatMap fun ch => sendPack h d (lit "FILE") ch) ++
            sendPack h d (lit "FILE") []) ++
          (sendPack h d (lit "DONE") (lit "") ++ sendPack h c (lit "CLOSE") (lit ""))) ∧
      dataConnection h fuel env c d (lit "GET") filename ≠ Outcome.exited := by
  have hs : searchFile filename (listLoop entries [] 0 env.info0).1 = true := by
    rw [searchFile_eq_true]
    exact ⟨cstr filename, hfound, (cstr_cstr filename).symm⟩
  have hrun := dataConnection_GET_open h fuel env c d (lit "GET") filename entries f hdir
    (by decide) (by decide) hs hopen
  rw [freadLoop_spec h d fuel f.content hfuel] at hrun
  simp only [hfail, if_true] at hrun
  refine ⟨hrun, ?_⟩
  rw [hrun]
  exact fun hne => by cases hne

theorem dataConnection_get_read_error_witness :
    failingFileEnv.dir = some [{ d_name := lit "a.txt", isDir := some false }] ∧
      failingFileEnv.fopen (cstr (lit "a.txt")) = some { content := lit "AB", failing := true } ∧
      dataConnection lp64 3 failingFileEnv 4 5 (lit "GET") (lit "a.txt") ≠ Outcome.exited :=
  ⟨rfl, rfl,
    (dataConnection_get_read_error lp64 3 failingFileEnv 4 5
      [{ d_name := lit "a.txt", isDir := some false }] (lit "a.txt")
      { content := lit "AB", failing := true } rfl (by decide) rfl rfl (by decide)).2⟩

/-! ## Directory lister, decode bound and tag bound: claims C13, C14, C16 -/

/-- When `stat` succeeds on every entry, `listFiles` returns the names of the
entries that are not directories, in enumeration order, and their number. -/
theorem listFiles_of_stat_ok (env : Env) (entries : List DirEntry)
    (hdir : env.dir = some entries) (hstat : ∀ e ∈ entries, e.isDir ≠ none) :
    listFiles env = Outcome.ret (nonDirNames entries, (nonDirNames entries).length) := by
  have h1 := listLoop_stat_ok entries [] 0 env.info0 hstat
  have h2 := listLoop_length entries [] 0 env.info0 rfl
  rw [List.nil_append] at h1
  unfold listFiles
  rw [hdir]
  simp only []
  rw [← h1, ← h2]

/-- C13, Directory Lister, on entries whose type cannot be obtained: the
return value of `stat` is not tested, so such an entry is judged by what the
previous `stat` left in `info`.  The entry `x` is skipped when it follows the
directory `.`, where the claim expects the listing `x`, and the same entry is
listed when it follows the regular file `a.txt`. -/
theorem listFiles_stale_stat :
    listFiles afterDirEnv = Outcome.ret ([], 0) ∧
      ownTypeNames [{ d_name := lit ".", isDir := some true },
        { d_name := lit "x", isDir := none }] = [lit "x"] ∧
      listFiles afterFileEnv = Outcome.ret ([lit "a.txt", lit "x"], 2) := by
  decide

theorem dataLenOf_eq (packLen : Nat) (hl : packLen < 65536) :
    dataLenOf packLen = if 10 ≤ packLen then packLen - 10 else packLen + 65526 := by
  unfold dataLenOf toUShort
  simp only [ARG_LEN]
  split <;> omega

/-- A packet whose length field says 1000 makes `recvPack` take 990 payload
bytes, which it stores in the 513-byte `dataBuf`. -/
theorem recvPack_long_payload :
    recvPack lp64 1 [some ((3 : Byte) :: 232 :: List.replicate 1004 65)] =
      Outcome.ret (List.replicate 8 65, List.replicate 990 65, []) := by
  have hd : dataLenOf (256 * (3 : Byte).val + (232 : Byte).val) = 990 := by decide
  have key := recvPack_single lp64 0 3 232 (List.replicate 1004 65) []
    (by decide)
    (by rw [hd]
        show 8 + 8 + 990 ≤ ((3 : Byte) :: 232 :: List.replicate 1004 65).length
        simp only [List.length_cons, List.length_replicate]
        omega)
  rw [hd] at key
  have hc : ∀ n, cstr (List.replicate n (65 : Byte)) = List.replicate n 65 := fun n =>
    cstr_of_nonzero _ (fun b hb => by rw [List.eq_of_mem_replicate hb]; decide)
  have e1 : ((3 : Byte) :: 232 :: List.replicate 1004 65).drop lp64.ptrSize =
      List.replicate 998 65 := by
    show ((3 : Byte) :: 232 :: List.replicate 1004 65).drop (6 + 1 + 1) = _
    rw [List.drop_succ_cons, List.drop_succ_cons, List.drop_replicate]
  have e2 : ((3 : Byte) :: 232 :: List.replicate 1004 65).drop (lp64.ptrSize + 8) =
      List.replicate 990 65 := by
    show ((3 : Byte) :: 232 :: List.replicate 1004 65).drop (14 + 1 + 1) = _
    rw [List.drop_succ_cons, List.drop_succ_cons, List.drop_replicate]
  have e3 : ((3 : Byte) :: 232 :: List.replicate 1004 65).length = lp64.ptrSize + 8 + 990 := by
    show ((3 : Byte) :: 232 :: List.replicate 1004 65).length = 8 + 8 + 990
    simp only [List.length_cons, List.length_replicate]
  rw [e1, e2, if_pos e3, List.take_replicate, List.take_replicate, hc, hc] at key
  exact key

/-- C14, payload bound on decode: for a 16-bit length field `packLen`, the
payload length that `recvPack` computes is at most 512 exactly when
`10 ≤ packLen ≤ 522`; below 10 the subtraction wraps around to
`packLen + 65526`, above 522 it is `packLen - 10 > 512`.  Nothing in
`recvPack` tests it. -/
theorem dataLenOf_bound (packLen : Nat) (hl : packLen < 65536) :
    (dataLenOf packLen ≤ MAX_PACK_PAYLOAD_LEN ↔ 10 ≤ packLen ∧ packLen ≤ 522) ∧
      (packLen < 10 → dataLenOf packLen = packLen + 65526) ∧
      (522 < packLen → dataLenOf packLen = packLen - 10) := by
  rw [dataLenOf_eq packLen hl]
  simp only [MAX_PACK_PAYLOAD_LEN]
  refine ⟨?_, ?_, ?_⟩
  · split <;> omega
  · intro h1; split <;> omega
  · intro h1; split <;> omega

theorem dataLenOf_bound_witness :
    (1000 : Nat) < 65536 ∧ ¬ (dataLenOf 1000 ≤ MAX_PACK_PAYLOAD_LEN) ∧ dataLenOf 1000 = 990 :=
  ⟨by omega,
    fun hle => by
      have := ((dataLenOf_bound 1000 (by omega)).1).mp hle
      omega,
    (dataLenOf_bound 1000 (by omega)).2.2 (by omega)⟩

/-- C16, tag precondition at the call sites: five of the six tag strings
have at most 8 bytes, the acknowledgment tag `valid command` has 13.
Copying it with its terminator takes 14 bytes, 5 more than the 9-byte
buffers `readoutOption` and `optionBuf` have, and the 8 tag bytes on the
wire are `valid co`, not the whole tag.  The call is reached on every valid
command, here `LIST`. -/
theorem ack_tag_too_long :
    sendPackTags.map strlen = [5, 13, 5, 4, 4, 5] ∧ ARG_LEN = 8 ∧
      (strcpy (List.replicate (ARG_LEN + 1) 0) (lit "valid command")).length = 14 ∧
      sentOn 4 (sendPack lp64 4 (lit "valid command") (lit "")) = [0, 10] ++ lit "valid co" ∧
      controlConnection lp64 1 4 0 (sessionInput (lit "LIST") []) =
        Outcome.ret
          { status := 0, commandArg := lit "LIST", dataConnPort := 30021, filename := [],
            trace := ([0, 10] ++ lit "valid co").map (Event.send 4), inp := [] } := by
  decide

/-! ## The handshake on packets in the wire format: claims C6, C10, C11 -/

/-- A call of `recvPack` on a connection whose one arrival holds a length
field and fewer bytes than the call asks for in all, and then closes: the
call never returns. -/
theorem recvPack_short (h : Host) (fuel : Nat) (a b : Byte) (m : List Byte)
    (hP : 2 ≤ h.ptrSize)
    (hlt : (a :: b :: m).length < h.ptrSize + 8 + dataLenOf (256 * a.val + b.val)) :
    recvPack h fuel [some (a :: b :: m)] = Outcome.outOfFuel := by
  have hP0 : (0 : Int) < (h.ptrSize : Int) := by omega
  cases fuel with
  | zero => simp [recvPack, recvFile, recvLoop, hP0]
  | succ fuel =>
    have hpk : dataLenOf (ntohs h (ushortAt h ((a :: b :: m).take h.ptrSize))) =
        dataLenOf (256 * a.val + b.val) := by
      obtain ⟨k, hk⟩ : ∃ k, h.ptrSize = k + 1 + 1 := ⟨h.ptrSize - 2, by omega⟩
      rw [hk]
      simp only [List.take_succ_cons]
      rw [ntohs_ushortAt]
    generalize hdl : dataLenOf (256 * a.val + b.val) = dl at hlt hpk
    generalize (a :: b :: m) = w at hlt hpk
    unfold recvPack
    rcases Nat.lt_or_ge w.length h.ptrSize with hbig | hfit
    · rw [recvFile_starved (fuel + 1) [some w] _ (by simp)
        (by simp only [pending]; push_cast; omega)]
    · rw [recvFile_take fuel w [] h.ptrSize (by omega) (by omega)]
      simp only [hpk, ARG_LEN]
      by_cases he1 : w.length = h.ptrSize
      · simp only [he1, if_true]
        rw [recvFile_starved (fuel + 1) [] _ (by simp) (by simp [pending])]
      · simp only [he1, if_false]
        have hl2 : (w.drop h.ptrSize).length = w.length - h.ptrSize := by
          simp only [List.length_drop]
        rcases Nat.lt_or_ge (w.drop h.ptrSize).length 8 with hlt8 | hge
        · rw [recvFile_starved (fuel + 1) [some (w.drop h.ptrSize)] _ (by simp)
            (by simp only [pending]; push_cast; omega)]
        · rw [recvFile_take fuel (w.drop h.ptrSize) [] 8 (by omega) (by omega)]
          simp only []
          by_cases he : (w.drop h.ptrSize).length = 8
          · simp only [he, if_true]
            rw [recvFile_starved (fuel + 1) [] _ (by simp)
              (by simp only [pending]; push_cast; omega)]
          · simp only [he, if_false]
            rw [recvFile_starved (fuel + 1) _ _ (by simp)
              (by simp only [pending, List.length_drop]; push_cast; omega)]

/-- The first `recvPack` of a session, on a host with 8-byte pointers, when
the stream starts with the packet `DPORT` `30021` of the specification: the
8 bytes it takes for the length reach into the tag, and the tag it decodes
is the empty string, read from the last two bytes of the tag field and the
payload. -/
theorem recvPack_dport_packet (fuel : Nat) (more : List Byte) (rest : Input)
    (hmore : 6 < more.length) :
    ∃ d1, recvPack lp64 (fuel + 1)
        (some (wirePacket (lit "DPORT") (lit "30021") ++ more) :: rest) =
      Outcome.ret ([], d1, some (more.drop 6) :: rest) := by
  have hw : wirePacket (lit "DPORT") (lit "30021") =
      [0, 15, 68, 80, 79, 82, 84, 0, 0, 0, 51, 48, 48, 50, 49] := by decide
  have hd : dataLenOf (256 * (0 : Byte).val + (15 : Byte).val) = 5 := by decide
  have hP : lp64.ptrSize = 8 := rfl
  rw [hw]
  have key := recvPack_single lp64 fuel 0 15
    ([68, 80, 79, 82, 84, 0, 0, 0, 51, 48, 48, 50, 49] ++ more) rest (by decide)
    (by rw [hd, hP]; simp only [List.length_cons, List.length_append, List.length_nil]; omega)
  rw [hd, hP] at key
  have hlen : ¬ ((0 : Byte) :: 15 :: ([68, 80, 79, 82, 84, 0, 0, 0, 51, 48, 48, 50, 49] ++
      more)).length = 8 + 8 + 5 := by
    simp only [List.length_cons, List.length_append, List.length_nil]; omega
  rw [if_neg hlen] at key
  refine ⟨cstr (List.take 5 (List.drop (8 + 8)
    (0 :: 15 :: ([68, 80, 79, 82, 84, 0, 0, 0, 51, 48, 48, 50, 49] ++ more)))), ?_⟩
  refine Eq.trans key ?_
  simp [cstr]

theorem controlConnection_second_hang (h : Host) (fuel : Nat) (fd : Fd) (port : Int)
    (inp inp1 : Input) (o1 d1 : List Byte)
    (h1 : recvPack h fuel inp = Outcome.ret (o1, d1, inp1))
    (h2 : recvPack h fuel inp1 = Outcome.outOfFuel) :
    controlConnection h fuel fd port inp = Outcome.outOfFuel := by
  unfold controlConnection
  simp only [h1, h2]

/-- On a host with 8-byte pointers `controlConnection` never returns when
the session arrives in the wire format of the specification, the command
tag having at most 4 bytes and the payload at most 512: the first `recvPack`
takes 6 bytes of the command packet, the second reads the length 0 from its
tag padding and waits for 65526 payload bytes. -/
theorem controlConnection_spec_hang (fuel : Nat) (fd : Fd) (port : Int)
    (tag payload : List Byte) (ht : tag.length ≤ 4) (hp : payload.length ≤ 512) :
    controlConnection lp64 fuel fd port (specSession tag payload) = Outcome.outOfFuel := by
  cases fuel with
  | zero => simp [controlConnection, recvPack, recvFile, recvLoop, lp64]
  | succ fuel =>
    have hlen : (wirePacket tag payload).length = 10 + payload.length :=
      wirePacket_length tag payload (by omega)
    obtain ⟨d1, h1⟩ := recvPack_dport_packet fuel (wirePacket tag payload) [] (by omega)
    have hdrop : (wirePacket tag payload).drop 6 = 0 :: 0 :: (0 :: 0 :: payload) := by
      have hpad : tag ++ List.replicate (8 - tag.length) (0 : Byte) =
          (tag ++ List.replicate (4 - tag.length) 0) ++ [0, 0, 0, 0] := by
        have e : 8 - tag.length = (4 - tag.length) + 4 := by omega
        rw [e, List.replicate_add, List.append_assoc]
        rfl
      have h4 : (tag ++ List.replicate (4 - tag.length) (0 : Byte)).length = 4 := by
        simp only [List.length_append, List.length_replicate]; omega
      generalize tag ++ List.replicate (4 - tag.length) (0 : Byte) = q at hpad h4
      match q, h4 with
      | [q0, q1, q2, q3], _ =>
        simp only [wirePacket, hpad]
        rfl
    rw [hdrop] at h1
    have hd0 : dataLenOf (256 * (0 : Byte).val + (0 : Byte).val) = 65526 := by decide
    have h2 := recvPack_short lp64 (fuel + 1) 0 0 (0 :: 0 :: payload) (by decide)
      (by
        rw [hd0]
        show (0 :: 0 :: (0 :: 0 :: payload) : List Byte).length < 8 + 8 + 65526
        simp only [List.length_cons]
        omega)
    exact controlConnection_second_hang lp64 (fuel + 1) fd port _ _ _ _ h1 h2

/-- C6, rejection of an invalid command, on a host with 8-byte pointers:
when the session arrives in the wire format of the specification and the
command tag has at most 4 bytes, as `PUT`, `controlConnection` sends no
`ERROR` packet and does not return -1: it never returns, and neither does
the session turn.  With a length read of 2 bytes the same stream is rejected
as the claim says. -/
theorem controlConnection_invalid_hangs (fuel : Nat) (env : Env) (fd : Fd) (port : Int)
    (tag payload : List Byte) (ht : tag.length ≤ 4) (hp : payload.length ≤ 512) :
    controlConnection lp64 fuel fd port (specSession tag payload) = Outcome.outOfFuel ∧
      ftpSession lp64 fuel env fd port (specSession tag payload) = Outcome.outOfFuel ∧
      controlConnection twoByteHost 1 4 0 (specSession (lit "PUT") (lit "x")) =
        Outcome.ret
          { status := -1, commandArg := lit "PUT", dataConnPort := 30021, filename := lit "x",
            trace := (wirePacket (lit "ERROR") (lit "command usage: -l || -g <FILENAME>")).map
              (Event.send 4),
            inp := [] } := by
  have hc := controlConnection_spec_hang fuel fd port tag payload ht hp
  refine ⟨hc, ?_, by decide⟩
  unfold ftpSession
  rw [hc]

theorem controlConnection_invalid_hangs_witness :
    (lit "PUT").length ≤ 4 ∧ (lit "x").length ≤ 512 ∧ lit "PUT" ≠ lit "LIST" ∧
      lit "PUT" ≠ lit "GET" ∧
      controlConnection lp64 1000 4 0 (specSession (lit "PUT") (lit "x")) = Outcome.outOfFuel :=
  have hl : (lit "x").length ≤ 512 := by
    show (1 : Nat) ≤ 512
    omega
  ⟨by decide, hl, by decide, by decide,
    (controlConnection_invalid_hangs 1000 textFileEnv 4 0 (lit "PUT") (lit "x") (by decide) hl).1⟩

/-- C10, acceptance of a valid command, on a host with 8-byte pointers: when
the session arrives in the wire format of the specification with command
`LIST` or `GET` and a file name of at most 512 bytes, `controlConnection`
sends no acknowledgment and does not return 0: it never returns.  With a
length read of 2 bytes the same stream is accepted, and the acknowledgment
then comes from the copy of the 13-byte tag `valid command`, 14 bytes with
its terminator, into buffers of 9 bytes. -/
theorem controlConnection_valid_hangs (fuel : Nat) (fd : Fd) (port : Int)
    (payload : List Byte) (hp : payload.length ≤ 512) :
    controlConnection lp64 fuel fd port (specSession (lit "LIST") payload) =
        Outcome.outOfFuel ∧
      controlConnection lp64 fuel fd port (specSession (lit "GET") payload) =
        Outcome.outOfFuel ∧
      controlConnection twoByteHost 1 4 0 (specSession (lit "GET") (lit "a.txt")) =
        Outcome.ret
          { status := 0, commandArg := lit "GET", dataConnPort := 30021,
            filename := lit "a.txt",
            trace := (wirePacket (lit "valid co") []).map (Event.send 4), inp := [] } ∧
      (strcpy (List.replicate (ARG_LEN + 1) 0) (lit "valid command")).length = 14 :=
  ⟨controlConnection_spec_hang fuel fd port (lit "LIST") payload (by decide) hp,
    controlConnection_spec_hang fuel fd port (lit "GET") payload (by decide) hp,
    by decide, by decide⟩

theorem controlConnection_valid_hangs_witness :
    (lit "a.txt").length ≤ 512 ∧
      controlConnection lp64 1000 4 0 (specSession (lit "GET") (lit "a.txt")) =
        Outcome.outOfFuel :=
  have hl : (lit "a.txt").length ≤ 512 := by
    show (5 : Nat) ≤ 512
    omega
  ⟨hl, (controlConnection_valid_hangs 1000 4 0 (lit "a.txt") hl).2.1⟩

/-- C11, data-port announcement, on a host with 8-byte pointers: when the
stream starts with the packet `DPORT` `30021` of the specification, the first
`recvPack` decodes the empty tag, not `DPORT`, and leaves the stream 6 bytes
into what follows the packet.  So the port is not stored: whatever follows,
if `controlConnection` returns, `dataConnPort` still has the value it had on
entry; and when what follows is a command packet of the specification, with a
tag of at most 4 bytes as `LIST` and `GET`, `controlConnection` never
returns. -/
theorem controlConnection_dport_not_stored (fuel : Nat) (fd : Fd) (port : Int)
    (more : List Byte) (rest : Input) (hmore : 6 < more.length) :
    (∃ d1, recvPack lp64 (fuel + 1)
        (some (wirePacket (lit "DPORT") (lit "30021") ++ more) :: rest) =
      Outcome.ret ([], d1, some (more.drop 6) :: rest)) ∧
      (∀ r, controlConnection lp64 (fuel + 1) fd port
          (some (wirePacket (lit "DPORT") (lit "30021") ++ more) :: rest) = Outcome.ret r →
        r.dataConnPort = port) ∧
      (∀ tag payload : List Byte, tag.length ≤ 4 → payload.length ≤ 512 →
        more = wirePacket tag payload → rest = [] →
        controlConnection lp64 (fuel + 1) fd port
          (some (wirePacket (lit "DPORT") (lit "30021") ++ more) :: rest) =
            Outcome.outOfFuel) := by
  obtain ⟨d1, h1⟩ := recvPack_dport_packet fuel more rest hmore
  refine ⟨⟨d1, h1⟩, ?_, ?_⟩
  · intro r hr
    cases h2 : recvPack lp64 (fuel + 1) (some (more.drop 6) :: rest) with
    | exited =>
      unfold controlConnection at hr
      simp [h1, h2] at hr
    | outOfFuel =>
      rw [controlConnection_second_hang lp64 (fuel + 1) fd port _ _ _ _ h1 h2] at hr
      cases hr
    | ret r2 =>
      obtain ⟨o2, d2, inp2⟩ := r2
      have hc := controlConnection_eq lp64 (fuel + 1) fd port _ _ inp2 [] d1 o2 d2 h1 h2
      rw [hc] at hr
      have hne : ¬ (([] : List Byte) = lit "DPORT") := by decide
      split at hr
      · simp only [Outcome.ret.injEq] at hr
        subst hr
        show (if ([] : List Byte) = lit "DPORT" then atoi d1 else port) = port
        rw [if_neg hne]
      · simp only [Outcome.ret.injEq] at hr
        subst hr
        show (if ([] : List Byte) = lit "DPORT" then atoi d1 else port) = port
        rw [if_neg hne]
  · intro tag payload ht hp hm hrest
    subst hm
    subst hrest
    exact controlConnection_spec_hang (fuel + 1) fd port tag payload ht hp

theorem controlConnection_dport_not_stored_witness :
    6 < (wirePacket (lit "LIST") []).length ∧
      (∃ d1, recvPack lp64 1 (specSession (lit "LIST") []) =
        Outcome.ret ([], d1, [some [0, 0, 0, 0]])) ∧
      controlConnection lp64 1 4 0 (specSession (lit "LIST") []) = Outcome.outOfFuel :=
  ⟨by decide,
    (controlConnection_dport_not_stored 0 4 0 (wirePacket (lit "LIST") []) []
      (by decide)).1,
    (controlConnection_dport_not_stored 0 4 0 (wirePacket (lit "LIST") []) []
      (by decide)).2.2 (lit "LIST") [] (by decide) (Nat.zero_le _) rfl rfl⟩

/-- A run of the model in which the stream goes on, after the packet `DPORT`
`30021`, with bytes that make both `recvPack` calls return: the data port
keeps the value -1 it had on entry. -/
theorem controlConnection_dport_ignored :
    controlConnection lp64 1 4 (-1)
        [some (wirePacket (lit "DPORT") (lit "30021") ++ ([0, 0, 0, 0, 0, 0] ++
          ([0, 10, 0, 0, 0, 0, 0, 0] ++ lit "LIST" ++ [0, 0, 0, 0])))] =
      Outcome.ret
        { status := 0, commandArg := lit "LIST", dataConnPort := -1, filename := [],
          trace := (wirePacket (lit "valid co") []).map (Event.send 4), inp := [] } := by
  decide

/-! ## The listing that `LIST` sends: claim C4 -/

/-- C4, `LIST`, on a directory with an entry whose `stat` fails: the entry
`x` is not a directory, yet after the directory `.` no `FNAME` packet is sent
for it and the data connection carries `DONE` alone, where the claim expects
one `FNAME` packet; after the regular file `a.txt` the same entry is sent.
The listing comes from `listFiles`, which does not test what `stat`
returns. -/
theorem dataConnection_list_stale_stat :
    streamOf 5 (dataConnection lp64 0 afterDirEnv 4 5 (lit "LIST") (lit "")) =
        some (wireStream [(lit "DONE", [])]) ∧
      ownTypeNames [{ d_name := lit ".", isDir := some true },
        { d_name := lit "x", isDir := none }] = [lit "x"] ∧
      streamOf 5 (dataConnection lp64 0 afterDirEnv 4 5 (lit "LIST") (lit "")) ≠
        some (wireStream ((ownTypeNames [{ d_name := lit ".", isDir := some true },
          { d_name := lit "x", isDir := none }]).map (fun n => (lit "FNAME", n)) ++
            [(lit "DONE", [])])) ∧
      streamOf 5 (dataConnection lp64 0 afterFileEnv 4 5 (lit "LIST") (lit "")) =
        some (wireStream [(lit "FNAME", lit "a.txt"), (lit "FNAME", lit "x"),
          (lit "DONE", [])]) := by
  decide


end FtServer
